import Mathlib

/-!
Verification of the drizzle-graphql-suite schema compiler
(packages/schema: schema-builder.ts, data-mappers.ts, permissions.ts,
row-security.ts, index.ts) against its natural-language specification.

The TypeScript sources are shallowly embedded: JavaScript runtime values that
flow through the compiler (GraphQL argument objects) are modelled by the
inductive `GVal`; functions that can throw `GraphQLError` are modelled in the
`Except` monad over an error enumeration mirroring the distinct error messages;
JS objects are modelled as ordered association lists, matching
`Object.entries` iteration order.
-/

namespace DG

/-- A JavaScript value as it arrives from GraphQL argument parsing:
`null`, `undefined`, booleans, numbers (modelled as integers), strings,
arrays and plain objects (ordered key/value lists, as `Object.entries`). -/
inductive GVal where
  | vnull
  | vundef
  | vbool (b : Bool)
  | vint (n : Int)
  | vstr (s : String)
  | varr (xs : List GVal)
  | vobj (fields : List (String × GVal))

/-- JavaScript truthiness of a `GVal` (objects and arrays are always truthy;
`null`, `undefined`, `false`, `0` and the empty string are falsy). -/
def GVal.truthy : GVal → Bool
  | .vnull => false
  | .vundef => false
  | .vbool b => b
  | .vint n => n != 0
  | .vstr s => s ≠ ""
  | .varr _ => true
  | .vobj _ => true

/-- The fields of an object value; non-objects have no entries. -/
def GVal.objFields : GVal → List (String × GVal)
  | .vobj fs => fs
  | _ => []

/-- `value === null` test used by the data mappers and filter extraction. -/
def GVal.isNull : GVal → Bool
  | .vnull => true
  | _ => false

/-- `value === undefined` test used by `remapFromGraphQLSingleInput`. -/
def GVal.isUndef : GVal → Bool
  | .vundef => true
  | _ => false

/-- `operatorValue === null || operatorValue === false`, the skip test in
`extractColumnFilters`. -/
def GVal.isNullOrFalse : GVal → Bool
  | .vnull => true
  | .vbool false => true
  | _ => false

/-- `value?.length` truthiness for an operator value expected to be an array:
true exactly when the value is a non-empty array (the guard
`if (!operators.OR?.length) delete operators.OR`). -/
def GVal.isNonEmptyArray : GVal → Bool
  | .varr (_ :: _) => true
  | _ => false

mutual

/-- Structural boolean equality on JS values (JS `===` on the data we model;
used only by the storage-condition semantics, not by the embedded code). -/
def GVal.beq : GVal → GVal → Bool
  | .vnull, .vnull => true
  | .vundef, .vundef => true
  | .vbool a, .vbool b => a == b
  | .vint a, .vint b => a == b
  | .vstr a, .vstr b => a == b
  | .varr xs, .varr ys => GVal.beqList xs ys
  | .vobj xs, .vobj ys => GVal.beqFields xs ys
  | _, _ => false

/-- Elementwise `GVal.beq` on arrays. -/
def GVal.beqList : List GVal → List GVal → Bool
  | [], [] => true
  | x :: xs, y :: ys => GVal.beq x y && GVal.beqList xs ys
  | _, _ => false

/-- Entrywise `GVal.beq` on object field lists. -/
def GVal.beqFields : List (String × GVal) → List (String × GVal) → Bool
  | [], [] => true
  | (k, x) :: xs, (l, y) :: ys => k == l && GVal.beq x y && GVal.beqFields xs ys
  | _, _ => false

end

/-- The distinct `GraphQLError` / `Error` cases thrown by the schema package,
one constructor per distinct message produced by the source. -/
inductive GraphQLErr where
  /-- `WHERE <col>: Cannot specify both fields and OR in column operators!` -/
  | conflictingOrColumn (columnName : String)
  /-- `WHERE <table>: Cannot specify both fields and OR in table filters!` -/
  | conflictingOrTable (tableName : String)
  /-- `WHERE <col>: Unable to use operator <op> with an empty array!` -/
  | emptyArray (columnName : String) (operatorName : String)
  /-- `Field <col> is not a valid date!` -/
  | invalidDate (columnName : String)
  /-- `Field <col> is not an array!` -/
  | notArray (columnName : String)
  /-- `Invalid float tuple in field <col>: ...` (PgGeometry length mismatch) -/
  | invalidTuple (columnName : String) (len : Nat)
  /-- `Field <col> is not a BigInt!` -/
  | notBigInt (columnName : String)
  /-- `Unknown column: <key>` -/
  | unknownColumn (columnName : String)
  /-- `Table <name> not found.` (internal lookup error) -/
  | tableNotFound (tableName : String)
  /-- `No values were provided!` (insert precondition) -/
  | noInsertValues
  /-- `Unable to update with no values specified!` (update precondition) -/
  | noUpdateValues
deriving DecidableEq, Repr

/-- The `column.dataType` discriminator used by the data mappers
(`date`, `buffer`, `json`, `array`, `bigint`, or any other kind). -/
inductive DataTypeKind where
  | date
  | buffer
  | json
  | array
  | bigint
  | other
deriving DecidableEq, Repr

/-- A physical column descriptor: the parts of drizzle-orm `Column` the schema
package reads (`dataType`, `columnType`, `notNull`). -/
structure Column where
  dataType : DataTypeKind
  columnType : String
  notNull : Bool
deriving DecidableEq, Repr

/-- A table: its name plus ordered column map (`getTableColumns`). -/
structure Table where
  name : String
  columns : List (String × Column)

/-- `getTableColumns` of drizzle-orm: the ordered column map of a table. -/
def getTableColumns (table : Table) : List (String × Column) :=
  table.columns

/-- A storage-format value, the result of input coercion: dates become `Date`
objects (epoch milliseconds), buffers byte arrays, big integers `BigInt`s;
array and raw/json values pass through. -/
inductive SVal where
  | sdate (ms : Int)
  | sbuf (bytes : List GVal)
  | sarr (xs : List GVal)
  | sbig (n : Int)
  | sraw (v : GVal)

/-- Boolean equality on storage values (delegating to `GVal.beq`). -/
def SVal.beq : SVal → SVal → Bool
  | .sdate a, .sdate b => a == b
  | .sbuf a, .sbuf b => GVal.beqList a b
  | .sarr a, .sarr b => GVal.beqList a b
  | .sbig a, .sbig b => a == b
  | .sraw a, .sraw b => GVal.beq a b
  | _, _ => false

/-- `new Date(value).getTime()` on the modelled values, `none` when the result
is `NaN`. JavaScript date-string parsing is platform library behaviour and is
modelled conservatively: numbers are epoch milliseconds, `null` is epoch 0,
booleans coerce to 0/1, and everything else (including strings) is `NaN`. -/
def jsNewDateMillis : GVal → Option Int
  | .vint n => some n
  | .vnull => some 0
  | .vbool b => some (if b then 1 else 0)
  | _ => none

/-- `BigInt(value)` on the modelled values, `none` when it throws. Number and
numeric-string inputs convert; booleans coerce to 0/1; `null`, `undefined`,
objects and arrays are modelled as failing. -/
def jsBigInt : GVal → Option Int
  | .vint n => some n
  | .vstr s => s.toInt?
  | .vbool b => some (if b then 1 else 0)
  | _ => none

/-- `remapFromGraphQLCore` of data-mappers.ts: coerces one wire value to
storage format according to the column`s dataType, throwing a typed
validation error on malformed input. -/
def remapFromGraphQLCore (value : GVal) (column : Column) (columnName : String) :
    Except GraphQLErr SVal :=
  match column.dataType with
  | .date =>
    match jsNewDateMillis value with
    | some ms => .ok (.sdate ms)
    | none => .error (.invalidDate columnName)
  | .buffer =>
    match value with
    | .varr xs => .ok (.sbuf xs)
    | _ => .error (.notArray columnName)
  | .json => .ok (.sraw value)
  | .array =>
    match value with
    | .varr xs =>
      if column.columnType = "PgGeometry" ∧ xs.length ≠ 2 then
        .error (.invalidTuple columnName xs.length)
      else
        .ok (.sarr xs)
    | _ => .error (.notArray columnName)
  | .bigint =>
    match jsBigInt value with
    | some n => .ok (.sbig n)
    | none => .error (.notBigInt columnName)
  | .other => .ok (.sraw value)

/-- `remapFromGraphQLSingleInput` of data-mappers.ts: walks the input object`s
entries in order; keys with `undefined` values are deleted; an unknown column
key throws; a `null` value for a `notNull` column is deleted silently;
every other value is passed through `remapFromGraphQLCore`. -/
def remapFromGraphQLSingleInput (queryInput : List (String × GVal)) (table : Table) :
    Except GraphQLErr (List (String × SVal)) :=
  match queryInput with
  | [] => .ok []
  | (key, value) :: rest =>
    if value.isUndef then
      remapFromGraphQLSingleInput rest table
    else
      match (getTableColumns table).lookup key with
      | none => .error (.unknownColumn key)
      | some column =>
        if value.isNull ∧ column.notNull then
          remapFromGraphQLSingleInput rest table
        else do
          let coerced ← remapFromGraphQLCore value column key
          let restOut ← remapFromGraphQLSingleInput rest table
          .ok ((key, coerced) :: restOut)

/-- `remapFromGraphQLArrayInput` of data-mappers.ts: remaps each entry of the
values array through `remapFromGraphQLSingleInput`. -/
def remapFromGraphQLArrayInput (queryInput : List (List (String × GVal))) (table : Table) :
    Except GraphQLErr (List (List (String × SVal))) :=
  match queryInput with
  | [] => .ok []
  | entry :: rest => do
    let e ← remapFromGraphQLSingleInput entry table
    let r ← remapFromGraphQLArrayInput rest table
    .ok (e :: r)

/-! ### SQL condition trees

The filter compiler lowers GraphQL filter objects into drizzle-orm condition
values (`SQL`). We model the produced condition tree syntactically: one
constructor per drizzle combinator the source uses. -/

/-- The comparison operator table `comparisonOps` of `extractColumnFilters`. -/
inductive CmpOp where
  | eq | ne | gt | gte | lt | lte
deriving DecidableEq, Repr

/-- The string operator table `stringOps`. -/
inductive StrOp where
  | like | notLike | ilike | notIlike
deriving DecidableEq, Repr

/-- The array operator table `arrayOps`. -/
inductive ArrOp where
  | inArray | notInArray
deriving DecidableEq, Repr

/-- The null-test operator table `nullOps`. -/
inductive NullOp where
  | isNull | isNotNull
deriving DecidableEq, Repr

/-- A column reference qualified by the drizzle table it belongs to
(`getTableName(col.table)` plus the column name). -/
structure JoinField where
  table : String
  name : String
deriving DecidableEq, Repr

/-- One equality atom of a relation join condition, as `buildJoinCondition`
renders it: the side belonging to the (possibly aliased) parent table is
qualified with the plain table name; otherwise a plain column equality. -/
inductive JoinAtom where
  /-- `sql\x7bidentifier parentName\x7d.\x7bidentifier fieldName\x7d = \x7bref\x7d` -/
  | parentFieldEq (parentName : String) (fieldName : String) (ref : JoinField)
  /-- `sql\x7bfield\x7d = \x7bidentifier parentName\x7d.\x7bidentifier refName\x7d` -/
  | fieldEqParentRef (field : JoinField) (parentName : String) (refName : String)
  /-- `eq(field, ref)` -/
  | plainEq (field : JoinField) (ref : JoinField)
deriving DecidableEq, Repr

/-- The condition tree produced by the filter compiler. `andN`/`orN` model the
variadic drizzle `and(...)`/`or(...)`; `existsSub` models
`exists(db.select(1).from(target).where(cond))`. -/
inductive SQLCond where
  | cmp (op : CmpOp) (col : String) (v : SVal)
  | strCmp (op : StrOp) (col : String) (pat : GVal)
  | arrCmp (op : ArrOp) (col : String) (vs : List SVal)
  | nullCmp (op : NullOp) (col : String)
  | andN (cs : List SQLCond)
  | orN (cs : List SQLCond)
  | notC (c : SQLCond)
  | existsSub (targetTable : String) (whereClause : SQLCond)
  | joinA (a : JoinAtom)

/-- `variants.length ? (variants.length > 1 ? and(...variants) : variants[0]) : undefined` -/
def combineAnd : List SQLCond → Option SQLCond
  | [] => none
  | [c] => some c
  | cs => some (.andN cs)

/-- `variants.length ? (variants.length > 1 ? or(...variants) : variants[0]) : undefined` -/
def combineOr : List SQLCond → Option SQLCond
  | [] => none
  | [c] => some c
  | cs => some (.orN cs)

/-! ### JS object plumbing for filter objects -/

/-- First-match key lookup on an object`s entry list (JS property access). -/
def lookupField (k : String) : List (String × GVal) → Option GVal
  | [] => none
  | (key, v) :: rest => if key = k then some v else lookupField k rest

/-- The items of an array value (non-arrays have none). -/
def GVal.arrItems : GVal → List GVal
  | .varr xs => xs
  | _ => []

/-- `if (!operators.OR?.length) delete operators.OR`: remove the `OR` key
unless its value is a non-empty array. -/
def deleteOrIfEmpty (fields : List (String × GVal)) : List (String × GVal) :=
  match lookupField "OR" fields with
  | some v => if v.isNonEmptyArray then fields else fields.filter (fun e => e.1 ≠ "OR")
  | none => fields

theorem lookupField_mem {k : String} {v : GVal} :
    ∀ {fields : List (String × GVal)}, lookupField k fields = some v → (k, v) ∈ fields := by
  intro fields
  induction fields with
  | nil => intro h; simp [lookupField] at h
  | cons e rest ih =>
    intro h
    obtain ⟨key, w⟩ := e
    by_cases hk : key = k
    · subst hk
      simp [lookupField] at h
      simp [h]
    · simp [lookupField, hk] at h
      exact List.mem_cons_of_mem _ (ih h)

theorem deleteOrIfEmpty_subset {e : String × GVal} {fields : List (String × GVal)}
    (h : e ∈ deleteOrIfEmpty fields) : e ∈ fields := by
  unfold deleteOrIfEmpty at h
  rcases hv : lookupField "OR" fields with _ | v <;> rw [hv] at h
  · exact h
  · by_cases ht : v.isNonEmptyArray <;> simp [ht] at h
    · exact h
    · exact h.1

theorem GVal.one_le_sizeOf (g : GVal) : 1 ≤ sizeOf g := by
  cases g <;> simp

theorem GVal.sizeOf_objFields_lt {k : String} {v : GVal} {g : GVal}
    (h : (k, v) ∈ g.objFields) : sizeOf v < sizeOf g := by
  match g with
  | .vobj fields =>
    have hm : sizeOf (k, v) < sizeOf fields := List.sizeOf_lt_of_mem h
    have hv : sizeOf v < sizeOf (k, v) := by
      simp only [Prod.mk.sizeOf_spec]
      omega
    simp only [GVal.vobj.sizeOf_spec]
    omega
  | .vnull | .vundef | .vbool _ | .vint _ | .vstr _ | .varr _ =>
    simp [GVal.objFields] at h

theorem GVal.sizeOf_arrItems_le (g : GVal) : sizeOf g.arrItems ≤ sizeOf g := by
  cases g <;> simp [GVal.arrItems]

theorem GVal.sizeOf_mem_arr {x : GVal} {xs : List GVal} (h : x ∈ xs) :
    sizeOf x < sizeOf xs :=
  List.sizeOf_lt_of_mem h

/-! ### Column filter extraction (`extractColumnFilters`) -/

/-- Lower one `(operatorName, operatorValue)` entry of a column operator
object to a primitive condition: null/false values are skipped, comparison
operators remap the value to storage format, array operators reject empty
arrays, unknown operator names produce nothing. -/
def lowerColumnOperator (column : Column) (columnName : String)
    (name : String) (value : GVal) : Except GraphQLErr (Option SQLCond) :=
  if value.isNullOrFalse then .ok none
  else
    match cmpOpOfName name with
    | some op => do
      let s ← remapFromGraphQLCore value column columnName
      .ok (some (.cmp op columnName s))
    | none =>
      match strOpOfName name with
      | some op => .ok (some (.strCmp op columnName value))
      | none =>
        match arrOpOfName name with
        | some op =>
          if value.arrItems.isEmpty then .error (.emptyArray columnName name)
          else do
            let vs ← value.arrItems.mapM (fun v => remapFromGraphQLCore v column columnName)
            .ok (some (.arrCmp op columnName vs))
        | none =>
          match nullOpOfName name with
          | some op => .ok (some (.nullCmp op columnName))
          | none => .ok none
where
  cmpOpOfName (n : String) : Option CmpOp :=
    if n = "eq" then some .eq else if n = "ne" then some .ne
    else if n = "gt" then some .gt else if n = "gte" then some .gte
    else if n = "lt" then some .lt else if n = "lte" then some .lte else none
  strOpOfName (n : String) : Option StrOp :=
    if n = "like" then some .like else if n = "notLike" then some .notLike
    else if n = "ilike" then some .ilike else if n = "notIlike" then some .notIlike else none
  arrOpOfName (n : String) : Option ArrOp :=
    if n = "inArray" then some .inArray
    else if n = "notInArray" then some .notInArray else none
  nullOpOfName (n : String) : Option NullOp :=
    if n = "isNull" then some .isNull
    else if n = "isNotNull" then some .isNotNull else none

/-- Fold `lowerColumnOperator` over the operator entries in object order,
keeping the produced conditions (the `variants` loop). -/
def lowerColumnOperators (column : Column) (columnName : String) :
    List (String × GVal) → Except GraphQLErr (List SQLCond)
  | [] => .ok []
  | (name, value) :: rest => do
    let r ← lowerColumnOperator column columnName name value
    let rs ← lowerColumnOperators column columnName rest
    .ok (match r with | some c => c :: rs | none => rs)

mutual

/-- `extractColumnFilters` of schema-builder.ts: compiles one column`s
operator object into an optional condition. A non-empty `OR` must be the sole
entry (else the conflicting-OR error); its branches compile recursively and
are OR`d; otherwise the entries lower to primitives that are AND`d. -/
def extractColumnFilters (column : Column) (columnName : String) (operators0 : GVal) :
    Except GraphQLErr (Option SQLCond) :=
  let fields := deleteOrIfEmpty operators0.objFields
  match hOR : lookupField "OR" fields with
  | some orv =>
    -- after the delete step, a present OR key always holds a non-empty array
    if fields.length > 1 then .error (.conflictingOrColumn columnName)
    else do
      let variants ← extractColumnFiltersOrList column columnName orv.arrItems
      .ok (combineOr variants)
  | none => do
    let variants ← lowerColumnOperators column columnName fields
    .ok (combineAnd variants)
termination_by sizeOf operators0
decreasing_by
  have hmem : ("OR", orv) ∈ operators0.objFields :=
    deleteOrIfEmpty_subset (lookupField_mem hOR)
  have h1 : sizeOf orv < sizeOf operators0 := GVal.sizeOf_objFields_lt hmem
  have h2 := GVal.sizeOf_arrItems_le orv
  omega

/-- The `for (const variant of operators.OR)` loop: compile each branch,
keeping the defined results in order. -/
def extractColumnFiltersOrList (column : Column) (columnName : String)
    (variants : List GVal) : Except GraphQLErr (List SQLCond) :=
  match variants with
  | [] => .ok []
  | v :: rest => do
    let r ← extractColumnFilters column columnName v
    let rs ← extractColumnFiltersOrList column columnName rest
    .ok (match r with | some c => c :: rs | none => rs)
termination_by sizeOf variants
decreasing_by
  all_goals simp
  omega

end

/-! ### Relation metadata and join conditions -/

/-- The per-relation data the filter compiler consumes: the target table name
(from `relationMap`), the cardinality (`is(relation, One)`), and the join key
pairs that `normalizeRelation` resolves (`none` models the case where
`normalizeRelation` throws, caught by `buildJoinCondition`). -/
structure RelationMeta where
  targetTableName : String
  isOne : Bool
  keyPairs : Option (List (JoinField × JoinField))

/-- The compiler state the filter-extraction methods read: the table registry
(`this.tables`) and the relation map (`this.relationMap`). -/
structure FilterEnv where
  tables : List (String × Table)
  relationMap : List (String × List (String × RelationMeta))

/-- `this.getTable`: registry lookup, throwing when the table is unknown. -/
def FilterEnv.getTable (env : FilterEnv) (tableName : String) : Except GraphQLErr Table :=
  match env.tables.lookup tableName with
  | some t => .ok t
  | none => .error (.tableNotFound tableName)

/-- `this.relationMap[tableName]?.[relationName]`. -/
def FilterEnv.relLookup (env : FilterEnv) (tableName relationName : String) :
    Option RelationMeta :=
  (env.relationMap.lookup tableName).bind (fun rels => rels.lookup relationName)

/-- JS property access `g.k` on an object value. -/
def GVal.get (g : GVal) (k : String) : Option GVal :=
  lookupField k g.objFields

/-- `buildJoinCondition` of schema-builder.ts: renders one equality per
resolved key pair, qualifying whichever side belongs to the parent table with
the plain (unaliased) table name; `none` when `normalizeRelation` throws or
resolves no key pairs. -/
def buildJoinCondition (parentTable : Table) (relation : RelationMeta) : Option SQLCond :=
  match relation.keyPairs with
  | none => none
  | some pairs =>
    if pairs.isEmpty then none
    else
      let parentName := parentTable.name
      let conditions := pairs.map (fun p =>
        if p.1.table = parentName then
          SQLCond.joinA (.parentFieldEq parentName p.1.name p.2)
        else if p.2.table = parentName then
          SQLCond.joinA (.fieldEqParentRef p.1 parentName p.2.name)
        else
          SQLCond.joinA (.plainEq p.1 p.2))
      combineAnd conditions

/-- The relation quantifiers of `buildExistsSubquery`. -/
inductive Quant where
  | qsome | qevery | qnone
deriving DecidableEq, Repr

/-- The column-filter loop of `extractTableColumnFilters`: look each entry`s
column up again, compile it with `extractColumnFilters`, keep defined
results. -/
def lowerTableColumnEntries (table : Table) :
    List (String × GVal) → Except GraphQLErr (List SQLCond)
  | [] => .ok []
  | (columnName, operators) :: rest =>
    match (getTableColumns table).lookup columnName with
    | none => lowerTableColumnEntries table rest
    | some column => do
      let r ← extractColumnFilters column columnName operators
      let rs ← lowerTableColumnEntries table rest
      .ok (match r with | some c => c :: rs | none => rs)

theorem sizeOf_filter_le {α : Type} [SizeOf α] (p : α → Bool) (l : List α) :
    sizeOf (l.filter p) ≤ sizeOf l := by
  induction l with
  | nil => simp
  | cons a t ih =>
    by_cases hp : p a <;> simp [List.filter_cons, hp] <;> omega

theorem GVal.sizeOf_objFields_le (g : GVal) : sizeOf g.objFields ≤ sizeOf g := by
  cases g <;> simp [GVal.objFields]

theorem GVal.sizeOf_get_lt {g : GVal} {k : String} {v : GVal}
    (h : g.get k = some v) : sizeOf v < sizeOf g :=
  GVal.sizeOf_objFields_lt (lookupField_mem h)

theorem lex_le_step {a b i j : Nat} (hab : a ≤ b) (hij : i < j) :
    Prod.Lex (· < · : Nat → Nat → Prop) (· < · : Nat → Nat → Prop) (a, i) (b, j) := by
  rcases Nat.lt_or_ge a b with hlt | hge
  · exact Prod.Lex.left _ _ hlt
  · have hab' : a = b := Nat.le_antisymm hab hge
    subst hab'
    exact Prod.Lex.right _ hij

theorem sizeOf_deleteOrIfEmpty_le (fields : List (String × GVal)) :
    sizeOf (deleteOrIfEmpty fields) ≤ sizeOf fields := by
  unfold deleteOrIfEmpty
  rcases lookupField "OR" fields with _ | v
  · exact le_refl _
  · by_cases ht : v.isNonEmptyArray <;> simp [ht]
    exact sizeOf_filter_le _ _

mutual

/-- `extractRelationFilters` of schema-builder.ts: a `one` relation`s filter
object lowers directly to an existential subquery; a `many` relation`s
`some`/`every`/`none` quantifiers each lower through `buildExistsSubquery`
and the defined results are AND`d. An unknown relation contributes nothing. -/
def extractRelationFilters (env : FilterEnv) (table : Table) (tableName : String)
    (relationName : String) (filterValue : GVal) : Except GraphQLErr (Option SQLCond) :=
  match env.relLookup tableName relationName with
  | none => .ok none
  | some rel => do
    let targetTable ← env.getTable rel.targetTableName
    if rel.isOne then
      buildExistsSubquery env table targetTable rel rel.targetTableName filterValue .qsome
    else do
      let vSome ←
        match hs : filterValue.get "some" with
        | some sv =>
          if sv.truthy then
            buildExistsSubquery env table targetTable rel rel.targetTableName sv .qsome
          else pure none
        | none => pure none
      let vEvery ←
        match he : filterValue.get "every" with
        | some ev =>
          if ev.truthy then
            buildExistsSubquery env table targetTable rel rel.targetTableName ev .qevery
          else pure none
        | none => pure none
      let vNone ←
        match hn : filterValue.get "none" with
        | some nv =>
          if nv.truthy then
            buildExistsSubquery env table targetTable rel rel.targetTableName nv .qnone
          else pure none
        | none => pure none
      .ok (combineAnd ([vSome, vEvery, vNone].filterMap id))
termination_by (sizeOf filterValue, 4)
decreasing_by
  all_goals
    first
    | exact Prod.Lex.right _ (by omega)
    | exact Prod.Lex.left _ _ (GVal.sizeOf_get_lt (by assumption))

/-- `buildExistsSubquery` of schema-builder.ts: join the target table on the
relation`s key pairs, add the compiled inner filter, and wrap in
`EXISTS`/`NOT EXISTS` according to the quantifier; `every` with no inner
filter is trivially true and emits no condition. The inner filter compiles
through `extractAllFilters`, which delegates to `extractTableColumnFilters`. -/
def buildExistsSubquery (env : FilterEnv) (parentTable targetTable : Table)
    (relation : RelationMeta) (targetTableName : String) (filterValue : GVal)
    (quantifier : Quant) : Except GraphQLErr (Option SQLCond) :=
  match buildJoinCondition parentTable relation with
  | none => .ok none
  | some joinCondition => do
    let innerFilter ← extractTableColumnFilters env targetTable targetTableName filterValue
    let whereClause :=
      match innerFilter with
      | some f => SQLCond.andN [joinCondition, f]
      | none => joinCondition
    match quantifier with
    | .qsome => .ok (some (.existsSub targetTableName whereClause))
    | .qnone => .ok (some (.notC (.existsSub targetTableName whereClause)))
    | .qevery =>
      match innerFilter with
      | none => .ok none
      | some f =>
        .ok (some (.notC (.existsSub targetTableName
          (.andN [joinCondition, .notC f]))))
termination_by (sizeOf filterValue, 3)
decreasing_by
  exact Prod.Lex.right _ (by omega)

/-- `extractTableColumnFilters` of schema-builder.ts: split the entries into
column keys and relation keys (null values skipped), enforce OR exclusivity
at the table level, then AND the compiled column conditions with the compiled
relation conditions; OR branches compile recursively through
`extractAllFilters` and are OR`d. -/
def extractTableColumnFilters (env : FilterEnv) (table : Table) (tableName : String)
    (filters0 : GVal) : Except GraphQLErr (Option SQLCond) :=
  let fields := deleteOrIfEmpty filters0.objFields
  let tableColumns := getTableColumns table
  let columnEntries := fields.filter
    (fun e => e.1 ≠ "OR" ∧ ¬e.2.isNull ∧ (tableColumns.lookup e.1).isSome)
  let relationEntries := fields.filter
    (fun e => e.1 ≠ "OR" ∧ ¬e.2.isNull ∧ (tableColumns.lookup e.1).isNone)
  match hOR : lookupField "OR" fields with
  | some orv =>
    if columnEntries.length > 0 ∨ relationEntries.length > 0 then
      .error (.conflictingOrTable tableName)
    else do
      let variants ← extractTableFiltersOrList env table tableName orv.arrItems
      .ok (combineOr variants)
  | none => do
    let colConds ← lowerTableColumnEntries table columnEntries
    let relConds ← lowerTableRelationEntries env table tableName relationEntries
    .ok (combineAnd (colConds ++ relConds))
termination_by (sizeOf filters0, 2)
decreasing_by
  · apply Prod.Lex.left
    have hmem : ("OR", orv) ∈ filters0.objFields :=
      deleteOrIfEmpty_subset (lookupField_mem hOR)
    have h1 : sizeOf orv < sizeOf filters0 := GVal.sizeOf_objFields_lt hmem
    have h2 := GVal.sizeOf_arrItems_le orv
    omega
  · exact lex_le_step
      (le_trans (le_trans (sizeOf_filter_le _ _) (sizeOf_deleteOrIfEmpty_le _))
        (GVal.sizeOf_objFields_le _))
      (by omega)

/-- The `for (const variant of filters.OR)` loop at the table level: each
branch compiles through `extractAllFilters` (delegating to
`extractTableColumnFilters`), defined results kept in order. -/
def extractTableFiltersOrList (env : FilterEnv) (table : Table) (tableName : String)
    (variants : List GVal) : Except GraphQLErr (List SQLCond) :=
  match variants with
  | [] => .ok []
  | v :: rest => do
    let r ← extractTableColumnFilters env table tableName v
    let rs ← extractTableFiltersOrList env table tableName rest
    .ok (match r with | some c => c :: rs | none => rs)
termination_by (sizeOf variants, 1)
decreasing_by
  all_goals exact Prod.Lex.left _ _ (by simp <;> omega)

/-- The relation-filter loop of `extractTableColumnFilters`: compile each
relation entry with `extractRelationFilters`, keeping defined results. -/
def lowerTableRelationEntries (env : FilterEnv) (table : Table) (tableName : String) :
    List (String × GVal) → Except GraphQLErr (List SQLCond)
  | [] => .ok []
  | (relationName, filterValue) :: rest => do
    let r ← extractRelationFilters env table tableName relationName filterValue
    let rs ← lowerTableRelationEntries env table tableName rest
    .ok (match r with | some c => c :: rs | none => rs)
termination_by entries => (sizeOf entries, 1)
decreasing_by
  all_goals exact Prod.Lex.left _ _ (by simp <;> omega)

end

/-- `extractAllFilters` of schema-builder.ts: combined filter extraction,
delegating to `extractTableColumnFilters`. -/
def extractAllFilters (env : FilterEnv) (table : Table) (tableName : String)
    (filters : GVal) : Except GraphQLErr (Option SQLCond) :=
  extractTableColumnFilters env table tableName filters

/-! ### Select-graph generator (`generateSelectFields`)

The recursive type-graph generator. The GraphQL type machinery (object type
construction, order/filter input types) is orthogonal to the traversal
decisions the claims are about; the embedding produces the traversal result:
per node, the table, its scalar field names, and the list of generated
relation fields `(relationName, isSelfRelation, child node)`. -/

/-- A `RelationPruneRule` of types.ts: `false` | `leaf` | `\x7b only: [...] \x7d`. -/
inductive PruneRule where
  | omit
  | leaf
  | only (rels : List String)
deriving DecidableEq, Repr

/-- The parts of a relation entry `generateSelectFields` reads. -/
structure GenRelEntry where
  targetTableName : String
  isOne : Bool
deriving DecidableEq, Repr

/-- The builder configuration and registry state read by the generator. -/
structure GenConfig where
  limitRelationDepth : Option Nat
  limitSelfRelationDepth : Nat
  relationMap : List (String × List (String × GenRelEntry))
  pruneRelations : List (String × PruneRule)
  columns : List (String × List String)

/-- A generated output-type node: table, scalar fields, relation fields. -/
inductive SelectNode where
  | node (table : String) (tableFields : List String)
      (relationFields : List (String × Bool × SelectNode))

/-- The relation fields of a generated node. -/
def SelectNode.relationFields : SelectNode → List (String × Bool × SelectNode)
  | .node _ _ rf => rf

/-- The table of a generated node. -/
def SelectNode.table : SelectNode → String
  | .node t _ _ => t

/-- `Math.max(newDepth, this.limitRelationDepth - 1)` applied only on
cross-table cycles under a finite depth limit (otherwise `newDepth`). -/
def effectiveNextDepth (limitRelationDepth : Option Nat) (isCrossCycle : Bool)
    (newDepth : Nat) : Nat :=
  match limitRelationDepth with
  | some lim => if isCrossCycle then max newDepth (lim - 1) else newDepth
  | none => newDepth

/-- The guard that stops relation descent: `forceLeaf`, or (no finite depth
limit and the table was already visited), or (a finite depth limit and the
current depth has reached it), or the table has no relations. -/
def stopRelationDescent (limitRelationDepth : Option Nat) (tableName : String)
    (currentDepth : Nat) (usedTables : List String) (forceLeaf : Bool)
    (noRelations : Bool) : Bool :=
  forceLeaf
    || (match limitRelationDepth with
        | none => usedTables.contains tableName
        | some lim => decide (currentDepth ≥ lim))
    || noRelations

/-- `currentSelfDepth + 1 >= this.limitSelfRelationDepth`, the self-relation
budget test. -/
def skipsSelfEdge (limitSelfRelationDepth : Nat) (currentSelfDepth : Nat) : Bool :=
  decide (currentSelfDepth + 1 ≥ limitSelfRelationDepth)

/-- `allowedRelations && !allowedRelations.includes(relationName)`: the
one-shot allow-list filter. -/
def allowedSkips (allowedRelations : Option (List String)) (relationName : String) : Bool :=
  match allowedRelations with
  | some l => !l.contains relationName
  | none => false

/-- The recursion arguments derived for one accepted relation edge. -/
structure EdgePlan where
  isSelfRelation : Bool
  nextDepth : Nat
  nextSelfDepth : Nat
  forceLeaf : Bool
  allowedRelations : Option (List String)

/-- `this.pruneRelations.get(tableName + "." + relationName)`. -/
def pruneRuleFor (cfg : GenConfig) (tableName relationName : String) : Option PruneRule :=
  cfg.pruneRelations.lookup (tableName ++ "." ++ relationName)

theorem effectiveNextDepth_ge (lim : Option Nat) (cc : Bool) (nd : Nat) :
    nd ≤ effectiveNextDepth lim cc nd := by
  unfold effectiveNextDepth
  cases lim with
  | none => exact le_refl _
  | some l => by_cases hcc : cc = true <;> simp [hcc]

/-- The per-edge decision logic of the relation loop in
`generateSelectFields`: `none` when the edge is skipped (allow-list filter,
`omit` prune rule, or exhausted self-relation budget); otherwise the
arguments for the recursive call — effective depth (bumped on cross-table
cycles), extended or reset self-relation run, and the one-shot leaf /
allow-list overrides derived from the edge`s prune rule. -/
def planRelationEdge (cfg : GenConfig) (tableName : String) (currentDepth : Nat)
    (usedTables : List String) (currentSelfDepth : Nat)
    (allowedRelations : Option (List String)) (relationName : String)
    (entry : GenRelEntry) : Option EdgePlan :=
  if allowedSkips allowedRelations relationName then none
  else if pruneRuleFor cfg tableName relationName = some PruneRule.omit then none
  else if (entry.targetTableName == tableName)
      && skipsSelfEdge cfg.limitSelfRelationDepth currentSelfDepth then none
  else
    some
      { isSelfRelation := entry.targetTableName == tableName
        nextDepth := effectiveNextDepth cfg.limitRelationDepth
          ((!(entry.targetTableName == tableName))
            && usedTables.contains entry.targetTableName) (currentDepth + 1)
        nextSelfDepth :=
          if entry.targetTableName == tableName then currentSelfDepth + 1 else 0
        forceLeaf := decide (pruneRuleFor cfg tableName relationName = some PruneRule.leaf)
        allowedRelations := match pruneRuleFor cfg tableName relationName with
          | some (PruneRule.only l) => some l
          | _ => none }

theorem planRelationEdge_spec {cfg : GenConfig} {tableName : String}
    {currentDepth : Nat} {usedTables : List String} {currentSelfDepth : Nat}
    {allowedRelations : Option (List String)} {relationName : String}
    {entry : GenRelEntry} {plan : EdgePlan}
    (h : planRelationEdge cfg tableName currentDepth usedTables currentSelfDepth
      allowedRelations relationName entry = some plan) :
    plan.isSelfRelation = (entry.targetTableName == tableName)
    ∧ plan.nextDepth = effectiveNextDepth cfg.limitRelationDepth
        ((!(entry.targetTableName == tableName))
          && usedTables.contains entry.targetTableName) (currentDepth + 1)
    ∧ plan.nextSelfDepth
        = (if entry.targetTableName == tableName then currentSelfDepth + 1 else 0)
    ∧ ((entry.targetTableName == tableName) = true
        → currentSelfDepth + 1 < cfg.limitSelfRelationDepth) := by
  unfold planRelationEdge at h
  split at h
  · exact Option.noConfusion h
  · split at h
    · exact Option.noConfusion h
    · split at h
      · exact Option.noConfusion h
      · rename_i hskip
        injection h with hplan
        subst hplan
        refine ⟨rfl, rfl, rfl, ?_⟩
        intro hself
        rw [hself] at hskip
        simp [skipsSelfEdge] at hskip
        omega

theorem planRelationEdge_nextDepth_ge {cfg : GenConfig} {tableName : String}
    {currentDepth : Nat} {usedTables : List String} {currentSelfDepth : Nat}
    {allowedRelations : Option (List String)} {relationName : String}
    {entry : GenRelEntry} {plan : EdgePlan}
    (h : planRelationEdge cfg tableName currentDepth usedTables currentSelfDepth
      allowedRelations relationName entry = some plan) :
    currentDepth + 1 ≤ plan.nextDepth := by
  have hspec := (planRelationEdge_spec h).2.1
  rw [hspec]
  exact effectiveNextDepth_ge _ _ _

theorem mem_keys_of_lookup {α β : Type} [BEq α] [LawfulBEq α] {k : α} {v : β} :
    ∀ {l : List (α × β)}, l.lookup k = some v → k ∈ l.map Prod.fst := by
  intro l
  induction l with
  | nil => intro h; simp [List.lookup] at h
  | cons e rest ih =>
    intro h
    rw [List.lookup] at h
    by_cases hk : k == e.1
    · have hke : k = e.1 := beq_iff_eq.mp hk
      rw [List.map_cons, hke]
      exact List.mem_cons_self _ _
    · rw [Bool.of_not_eq_true hk] at h
      rw [List.map_cons]
      exact List.mem_cons_of_mem _ (ih h)

theorem length_filter_le_of_imp {α : Type} (p q : α → Bool) (l : List α)
    (himp : ∀ a, q a = true → p a = true) :
    (l.filter q).length ≤ (l.filter p).length := by
  induction l with
  | nil => simp
  | cons a t ih =>
    by_cases hq : q a
    · simp [List.filter_cons, hq, himp a hq]
      omega
    · simp only [List.filter_cons, Bool.of_not_eq_true hq, cond_false]
      by_cases hp : p a <;> simp [hp] <;> omega

theorem length_filter_lt_of_witness {α : Type} (p q : α → Bool) (l : List α)
    (himp : ∀ a, q a = true → p a = true)
    (x : α) (hx : x ∈ l) (hpx : p x = true) (hqx : q x = false) :
    (l.filter q).length < (l.filter p).length := by
  induction l with
  | nil => cases hx
  | cons a t ih =>
    rcases List.mem_cons.mp hx with rfl | hxt
    · have hle := length_filter_le_of_imp p q t himp
      simp [List.filter_cons, hpx, hqx]
      omega
    · by_cases hq : q a
      · simp [List.filter_cons, hq, himp a hq]
        exact ih hxt
      · simp only [List.filter_cons, Bool.of_not_eq_true hq, cond_false]
        by_cases hp : p a
        · simp [hp]
          exact Nat.lt_succ_of_lt (ih hxt)
        · simp [Bool.of_not_eq_true hp]
          exact ih hxt

/-- The termination measure of the generator: under a finite depth limit the
remaining depth budget; otherwise the number of relation-bearing tables not
yet visited. -/
def genMeasure (cfg : GenConfig) (currentDepth : Nat) (usedTables : List String) : Nat :=
  match cfg.limitRelationDepth with
  | some lim => lim - currentDepth
  | none => ((cfg.relationMap.map Prod.fst).filter (fun t => !usedTables.contains t)).length

/-- `generateSelectFields` of schema-builder.ts, traversal part: always emit
the scalar fields; stop descending when `stopRelationDescent` fires;
otherwise process each relation entry in order — the one-shot allow-list,
the `omit` prune rule and the exhausted self-relation budget each skip the
edge; a cross-table cycle bumps the effective next depth; recursion adds the
current table to the visited set, extends or resets the self-relation run,
and derives one-shot leaf/allow-list overrides from the edge`s prune rule. -/
def generateSelectFields (cfg : GenConfig) (tableName : String)
    (currentDepth : Nat) (usedTables : List String) (currentSelfDepth : Nat)
    (forceLeaf : Bool) (allowedRelations : Option (List String)) : SelectNode :=
  let relationEntries := (cfg.relationMap.lookup tableName).getD []
  let tableFields := (cfg.columns.lookup tableName).getD []
  if hstop : stopRelationDescent cfg.limitRelationDepth tableName currentDepth usedTables
      forceLeaf relationEntries.isEmpty then
    .node tableName tableFields []
  else
    let rf := relationEntries.attach.filterMap (fun pe =>
      match hplan : planRelationEdge cfg tableName currentDepth usedTables
          currentSelfDepth allowedRelations pe.1.1 pe.1.2 with
      | none => none
      | some plan =>
        some (pe.1.1, plan.isSelfRelation,
          generateSelectFields cfg pe.1.2.targetTableName plan.nextDepth
            (tableName :: usedTables) plan.nextSelfDepth plan.forceLeaf
            plan.allowedRelations))
    .node tableName tableFields rf
termination_by genMeasure cfg currentDepth usedTables
decreasing_by
  rcases hlim : cfg.limitRelationDepth with _ | lim
  · -- no depth limit: the visited set grows by a relation-bearing table
    simp only [genMeasure, hlim]
    simp only [stopRelationDescent, hlim, Bool.or_eq_true, decide_eq_true_eq] at hstop
    push_neg at hstop
    obtain ⟨⟨hfl, hmemb⟩, hne⟩ := hstop
    have hmem' : tableName ∉ usedTables := by
      have hc : usedTables.contains tableName = false := Bool.eq_false_iff.mpr hmemb
      simpa using hc
    have hkey : tableName ∈ cfg.relationMap.map Prod.fst := by
      rcases hlk : cfg.relationMap.lookup tableName with _ | rels
      · exfalso
        apply hne
        show ((cfg.relationMap.lookup tableName).getD []).isEmpty = true
        rw [hlk]
        rfl
      · exact mem_keys_of_lookup hlk
    apply length_filter_lt_of_witness _ _ _ ?himp tableName hkey ?hpx ?hqx
    case himp =>
      intro a ha
      simp at ha ⊢
      tauto
    case hpx => simp [hmem']
    case hqx => simp
  · -- finite depth limit: the effective depth strictly increases
    simp only [genMeasure, hlim]
    simp only [stopRelationDescent, hlim, Bool.or_eq_true, decide_eq_true_eq] at hstop
    push_neg at hstop
    obtain ⟨⟨hfl, hdepth⟩, hne⟩ := hstop
    have hge := planRelationEdge_nextDepth_ge hplan
    omega

/-! ### Measures on generated select graphs -/

mutual

/-- Length of the longest run of consecutive self-relation edges starting at
this node. -/
def selfChain : SelectNode → Nat
  | .node _ _ rf => selfChainList rf

/-- List version of `selfChain`: maximum over the relation fields, counting
only edges flagged as self-relations. -/
def selfChainList : List (String × Bool × SelectNode) → Nat
  | [] => 0
  | (_, isSelf, c) :: rest =>
    max (if isSelf then selfChain c + 1 else 0) (selfChainList rest)

end

mutual

/-- Relation-nesting depth of a generated node (0 for a leaf). -/
def relDepth : SelectNode → Nat
  | .node _ _ rf => relDepthList rf

/-- List version of `relDepth`. -/
def relDepthList : List (String × Bool × SelectNode) → Nat
  | [] => 0
  | (_, _, c) :: rest => max (relDepth c + 1) (relDepthList rest)

end

mutual

/-- `p` holds at every node of the tree. -/
def everyNode (p : SelectNode → Bool) : SelectNode → Bool
  | .node t fs rf => p (.node t fs rf) && everyNodeList p rf

/-- List version of `everyNode`. -/
def everyNodeList (p : SelectNode → Bool) : List (String × Bool × SelectNode) → Bool
  | [] => true
  | (_, _, c) :: rest => everyNode p c && everyNodeList p rest

end

theorem selfChainList_le {k : Nat} :
    ∀ {rf : List (String × Bool × SelectNode)},
      (∀ x ∈ rf, (if x.2.1 then selfChain x.2.2 + 1 else 0) ≤ k) → selfChainList rf ≤ k := by
  intro rf
  induction rf with
  | nil => intro _; simp [selfChainList]
  | cons x rest ih =>
    intro h
    obtain ⟨n, isSelf, c⟩ := x
    rw [selfChainList]
    have h1 := h _ (List.mem_cons_self _ _)
    have h2 := ih (fun y hy => h y (List.mem_cons_of_mem _ hy))
    simp only at h1
    omega

theorem relDepthList_le {k : Nat} :
    ∀ {rf : List (String × Bool × SelectNode)},
      (∀ x ∈ rf, relDepth x.2.2 + 1 ≤ k) → relDepthList rf ≤ k := by
  intro rf
  induction rf with
  | nil => intro _; simp [relDepthList]
  | cons x rest ih =>
    intro h
    obtain ⟨n, isSelf, c⟩ := x
    rw [relDepthList]
    have h1 := h _ (List.mem_cons_self _ _)
    have h2 := ih (fun y hy => h y (List.mem_cons_of_mem _ hy))
    simp only at h1
    omega

theorem everyNodeList_of {p : SelectNode → Bool} :
    ∀ {rf : List (String × Bool × SelectNode)},
      (∀ x ∈ rf, everyNode p x.2.2 = true) → everyNodeList p rf = true := by
  intro rf
  induction rf with
  | nil => intro _; simp [everyNodeList]
  | cons x rest ih =>
    intro h
    obtain ⟨n, isSelf, c⟩ := x
    rw [everyNodeList]
    have h1 := h _ (List.mem_cons_self _ _)
    have h2 := ih (fun y hy => h y (List.mem_cons_of_mem _ hy))
    simp only at h1
    simp [h1, h2]

/-- Helper: a node whose relation fields all satisfy the chain bound and the
recursive property satisfies both conjuncts of the self-relation invariant. -/
theorem node_selfOk {S k : Nat} {t : String} {fs : List String}
    {rf : List (String × Bool × SelectNode)} (hk : k ≤ S - 1)
    (h : ∀ x ∈ rf, (if x.2.1 then selfChain x.2.2 + 1 else 0) ≤ k
         ∧ everyNode (fun n => decide (selfChain n ≤ S - 1)) x.2.2 = true) :
    selfChain (SelectNode.node t fs rf) ≤ k ∧
    everyNode (fun n => decide (selfChain n ≤ S - 1)) (SelectNode.node t fs rf) = true := by
  have h1 : selfChainList rf ≤ k := selfChainList_le (fun x hx => (h x hx).1)
  refine ⟨by simpa [selfChain] using h1, ?_⟩
  rw [everyNode, Bool.and_eq_true]
  constructor
  · simp only [selfChain, decide_eq_true_eq]
    omega
  · exact everyNodeList_of (fun x hx => (h x hx).2)

/-- Invariant of the generator under a finite depth limit `D`: entered at
depth `d`, the produced subtree nests relations at most `D - d` deep. -/
theorem relDepth_generateSelectFields_le (cfg : GenConfig) (D : Nat)
    (hD : cfg.limitRelationDepth = some D)
    (t : String) (d : Nat) (u : List String) (sd : Nat) (fl : Bool)
    (al : Option (List String)) :
    relDepth (generateSelectFields cfg t d u sd fl al) ≤ D - d := by
  induction t, d, u, sd, fl, al using generateSelectFields.induct cfg with
  | case1 t d u sd fl al rel hstop =>
    rw [generateSelectFields, dif_pos hstop]
    simp [relDepth, relDepthList]
  | case2 t d u sd fl al rel hstop ih =>
    rw [generateSelectFields, dif_neg hstop]
    simp only [relDepth]
    apply relDepthList_le
    intro x hx
    obtain ⟨pe, hpe, hf⟩ := List.mem_filterMap.mp hx
    split at hf
    · exact Option.noConfusion hf
    · rename_i plan hplan
      injection hf with hx2
      subst hx2
      simp only
      have hih := ih pe plan hplan
      have hge := planRelationEdge_nextDepth_ge hplan
      have hdlt : d < D := by
        rw [stopRelationDescent.eq_def, hD] at hstop
        simp at hstop
        omega
      omega

/-- Invariant of the generator for the self-relation limit: entered with a
self-relation run of `sd`, the longest run starting at the produced node is
at most `S - 1 - sd`, and every node in the subtree has runs at most
`S - 1`. -/
theorem selfChain_generateSelectFields (cfg : GenConfig)
    (t : String) (d : Nat) (u : List String) (sd : Nat) (fl : Bool)
    (al : Option (List String)) :
    selfChain (generateSelectFields cfg t d u sd fl al)
      ≤ cfg.limitSelfRelationDepth - 1 - sd
    ∧ everyNode (fun n => decide (selfChain n ≤ cfg.limitSelfRelationDepth - 1))
        (generateSelectFields cfg t d u sd fl al) = true := by
  induction t, d, u, sd, fl, al using generateSelectFields.induct cfg with
  | case1 t d u sd fl al rel hstop =>
    rw [generateSelectFields, dif_pos hstop]
    constructor
    · simp [selfChain, selfChainList]
    · simp [everyNode, everyNodeList, selfChain, selfChainList]
  | case2 t d u sd fl al rel hstop ih =>
    rw [generateSelectFields, dif_neg hstop]
    apply node_selfOk (by omega)
    intro x hx
    obtain ⟨pe, hpe, hf⟩ := List.mem_filterMap.mp hx
    split at hf
    · exact Option.noConfusion hf
    · rename_i plan hplan
      injection hf with hx2
      subst hx2
      simp only
      have hih := ih pe plan hplan
      obtain ⟨hflag, _, hnsd, hselflt⟩ := planRelationEdge_spec hplan
      by_cases hs : (pe.1.2.targetTableName == t) = true
      · have hlt := hselflt hs
        rw [hnsd, if_pos hs] at hih
        rw [hflag, hnsd, if_pos hs]
        simp only [hs, if_true]
        refine ⟨?_, hih.2⟩
        have := hih.1
        omega
      · have h0 : plan.nextSelfDepth = 0 := by rw [hnsd, if_neg hs]
        rw [h0] at hih
        rw [hflag, h0, Bool.of_not_eq_true hs]
        refine ⟨?_, hih.2⟩
        simp

/-! ### Hook pipeline merging (`mergeHooks` of row-security.ts)

Hooks are effectful JavaScript functions. The embedding instruments them with
an explicit event log (threaded state) so that execution order is observable,
and models their return values as JS values (`GVal`), matching the loose
`BeforeHookResult | undefined` typing of the source. -/

/-- The seven per-table operations hooks can attach to. -/
inductive OperationType where
  | query | querySingle | count | insert | insertSingle | update | delete
deriving DecidableEq, Repr

/-- The context a `before` hook receives (the `info` field carries no
behaviour and is omitted). -/
structure HookCtx where
  args : GVal
  context : GVal

/-- The context an `after` hook receives. -/
structure AfterHookCtx where
  result : GVal
  beforeData : GVal
  context : GVal

/-- A `before` hook: receives the context, returns a
`BeforeHookResult | undefined` JS value, and may log events. -/
def BeforeHookFn : Type := HookCtx → List String → GVal × List String

/-- An `after` hook: receives the result context, returns the transformed
result, and may log events. -/
def AfterHookFn : Type := AfterHookCtx → List String → GVal × List String

/-- A `resolve` hook (its `defaultResolve` capability is irrelevant to merge
semantics and omitted here). -/
def ResolveHookFn : Type := HookCtx → List String → GVal × List String

/-- `g?.k`: JS optional property access (undefined on non-objects and missing
keys). -/
def jsProp (g : GVal) (k : String) : GVal :=
  match lookupField k g.objFields with
  | none => .vundef
  | some v => v

/-- The JS nullish-coalescing operator `a ?? b`. -/
def jsCoalesce (a b : GVal) : GVal :=
  if a.isNull ∨ a.isUndef then b else a

/-- `OperationHooks` of types.ts: `\x7bbefore?, after?\x7d` or `\x7bresolve\x7d`
(the `'resolve' in hooks` test becomes a constructor test). -/
inductive OperationHooks where
  | beforeAfter (before : Option BeforeHookFn) (after : Option AfterHookFn)
  | resolveHook (resolve : ResolveHookFn)

/-- Per-table hook configuration: operation → hooks. -/
def TableHookConfig : Type := OperationType → Option OperationHooks

/-- A hooks config: table name → per-table configuration. -/
def HooksConfig : Type := String → Option TableHookConfig

/-- The chained `before` hook `mergeHooks` builds when both sides define one:
run the first hook, thread its replacement args (a truthiness test) into the
context for the second, and combine `args`/`data` with `??` preferring the
second hook`s output. -/
def chainBefore (first second : BeforeHookFn) : BeforeHookFn := fun ctx log =>
  let firstOut := first ctx log
  let firstResult := firstOut.1
  let nextCtx :=
    if (jsProp firstResult "args").truthy then
      { ctx with args := jsProp firstResult "args" }
    else ctx
  let secondOut := second nextCtx firstOut.2
  let secondResult := secondOut.1
  (.vobj
    [("args", jsCoalesce (jsProp secondResult "args")
        (jsCoalesce (jsProp firstResult "args") .vundef)),
     ("data", jsCoalesce (jsProp secondResult "data")
        (jsCoalesce (jsProp firstResult "data") .vundef))],
   secondOut.2)

/-- The chained `after` hook: run the first hook, hand its output result to
the second. -/
def chainAfter (first second : AfterHookFn) : AfterHookFn := fun ctx log =>
  let firstOut := first ctx log
  second { ctx with result := firstOut.1 } firstOut.2

/-- The merge of `after` hook slots (`hooks.after`/`existingOp.after`). -/
def mergeAfterSlot (na ea : Option AfterHookFn) : Option AfterHookFn :=
  match na, ea with
  | some second, some first => some (chainAfter first second)
  | _, _ => na <|> ea

/-- The per-operation merge step of `mergeHooks`: a later `resolve` wins
outright; a later `before`/`after` pair entirely replaces an earlier
`resolve`; otherwise `before` chains run existing-then-new and `after` chains
likewise, single-sided slots passing through. -/
def mergeOperationHooks (existingOp hooks : OperationHooks) : OperationHooks :=
  match hooks with
  | .resolveHook r => .resolveHook r
  | .beforeAfter nb na =>
    match existingOp with
    | .resolveHook _ => .beforeAfter nb na
    | .beforeAfter eb ea =>
      let mergedBefore :=
        match nb, eb with
        | some second, some first => some (chainBefore first second)
        | _, _ => nb <|> eb
      .beforeAfter mergedBefore (mergeAfterSlot na ea)

/-- One accumulation step of `mergeHooks`: merge one config into the result
accumulated so far (table by table, operation by operation). -/
def mergeTwoHookConfigs (acc c : HooksConfig) : HooksConfig := fun tableName =>
  match c tableName with
  | none => acc tableName
  | some tableHooks => some (fun op =>
      match tableHooks op with
      | none => (acc tableName).bind (fun e => e op)
      | some hooks =>
        match (acc tableName).bind (fun e => e op) with
        | none => some hooks
        | some existingOp => some (mergeOperationHooks existingOp hooks))

/-- `mergeHooks` of row-security.ts: fold the configs left to right, skipping
`undefined` entries. -/
def mergeHooks (configs : List (Option HooksConfig)) : HooksConfig :=
  configs.foldl
    (fun result c =>
      match c with
      | none => result
      | some config => mergeTwoHookConfigs result config)
    (fun _ => none)

/-- The hooks a merged config holds for one table and operation. -/
def hookAt (cfg : HooksConfig) (t : String) (op : OperationType) :
    Option OperationHooks :=
  (cfg t).bind (fun tc => tc op)

/-- A config defining hooks for exactly one table and operation. -/
def singleHookConfig (t : String) (op : OperationType) (h : OperationHooks) :
    HooksConfig := fun tableName =>
  if tableName = t then
    some (fun o => if o = op then some h else none)
  else none

/-- An order-recording, argument-transforming `before` hook stub: appends its
tag to the log and returns `\x7b args: f(ctx.args) \x7d`. -/
def stubBefore (tag : String) (f : GVal → GVal) : BeforeHookFn := fun ctx log =>
  (.vobj [("args", f ctx.args)], log ++ [tag])

/-! ### Permissions (`permissions.ts`) and entry-point generation

`buildEntities` is modelled at the level of the generated operation names:
which query and mutation entry points exist for which tables, which is the
level the permission claims are stated at. -/

/-- Modelled from the spec: `capitalize` of case-ops.ts, whose implementation
file is not under src/ (only its test file is); per case-ops.test.ts it
upper-cases the first character and leaves the rest unchanged. -/
def capitalize (s : String) : String :=
  match s.data with
  | [] => s
  | c :: rest => String.mk (c.toUpper :: rest)

/-- Modelled from the spec: `uncapitalize` of case-ops.ts (implementation not
under src/); per case-ops.test.ts it lower-cases the first character. -/
def uncapitalize (s : String) : String :=
  match s.data with
  | [] => s
  | c :: rest => String.mk (c.toLower :: rest)

/-- The permission mode: `permissive` (default allow) or `restricted`
(default deny). -/
inductive PermMode where
  | permissive | restricted
deriving DecidableEq, Repr

/-- `TableAccess` of types.ts: granular per-operation flags, each optional. -/
structure TableAccess where
  query : Option Bool
  insert : Option Bool
  update : Option Bool
  delete : Option Bool
deriving DecidableEq, Repr

/-- A per-table override in a permission config: a plain boolean or a
granular `TableAccess`. -/
inductive TableOverride where
  | full (b : Bool)
  | granular (a : TableAccess)
deriving DecidableEq, Repr

/-- `PermissionConfig` of types.ts. -/
structure PermissionConfig where
  id : String
  mode : PermMode
  tables : Option (List (String × TableOverride))

/-- `restricted(id, tables?)` of permissions.ts. -/
def restricted (id : String) (tables : Option (List (String × TableOverride))) :
    PermissionConfig :=
  { id := id, mode := .restricted, tables := tables }

/-- `permissive(id, tables?)` of permissions.ts. -/
def permissive (id : String) (tables : Option (List (String × TableOverride))) :
    PermissionConfig :=
  { id := id, mode := .permissive, tables := tables }

/-- `readOnly()` of permissions.ts. -/
def readOnly : TableAccess :=
  { query := some true, insert := some false, update := some false, delete := some false }

/-- The result of `resolveTableAccess`: `true`, `false`, or a granular
access object. -/
inductive ResolvedAccess where
  | allowAll
  | denyAll
  | granular (a : TableAccess)
deriving DecidableEq, Repr

/-- `resolveTableAccess` of permissions.ts: permissive mode defaults to full
access and overrides deny; restricted mode defaults to no access and
overrides grant. -/
def resolveTableAccess (permissions : PermissionConfig) (tableName : String) :
    ResolvedAccess :=
  let override := permissions.tables.bind (fun t => t.lookup tableName)
  match permissions.mode with
  | .permissive =>
    match override with
    | none => .allowAll
    | some (.full b) => if b then .allowAll else .denyAll
    | some (.granular a) => .granular a
  | .restricted =>
    match override with
    | none => .denyAll
    | some (.full b) => if b then .allowAll else .denyAll
    | some (.granular a) => .granular a

/-- `TableOperations` of types.ts (per-table query/mutation toggles). -/
structure TableOperations where
  queries : Option Bool
  mutations : Option Bool
deriving DecidableEq, Repr

/-- The `tables` part of `BuildSchemaConfig`. -/
structure BuildTablesConfig where
  exclude : Option (List String)
  config : Option (List (String × TableOperations))

/-- The parts of `BuildSchemaConfig` the permission engine reads or writes. -/
structure BuildSchemaConfig where
  mutations : Option Bool
  tables : Option BuildTablesConfig

/-- Post-build mutation filter flags for one table. -/
structure MutationFlags where
  insert : Bool
  update : Bool
  delete : Bool
deriving DecidableEq, Repr

/-- The result of `mergePermissionsIntoConfig`. -/
structure MergeResult where
  config : BuildSchemaConfig
  mutationFilter : List (String × MutationFlags)

/-- `tableConfig[tableName] = { ...tableConfig[tableName], ... }`: record
upsert, keeping position for existing keys and appending new ones; a missing
entry spreads as the empty object. -/
def setTableOps (m : List (String × TableOperations)) (k : String)
    (f : TableOperations → TableOperations) : List (String × TableOperations) :=
  let newVal := f ((m.lookup k).getD { queries := none, mutations := none })
  if (m.lookup k).isSome then
    m.map (fun e => if e.1 = k then (k, newVal) else e)
  else m ++ [(k, newVal)]

/-- The loop state of `mergePermissionsIntoConfig`: the growing exclusion
list, the per-table operation config, and the mutation post-filter map. -/
structure PermMergeState where
  excluded : List String
  tableConfig : List (String × TableOperations)
  mutationFilter : List (String × MutationFlags)

/-- One iteration of the `mergePermissionsIntoConfig` loop over a table. -/
def mergePermStep (permissions : PermissionConfig) (st : PermMergeState)
    (tableName : String) : PermMergeState :=
  if st.excluded.contains tableName then st
  else
    match resolveTableAccess permissions tableName with
    | .denyAll => { st with excluded := st.excluded ++ [tableName] }
    | .allowAll => st
    | .granular access =>
      let defaultAllow : Bool := permissions.mode == PermMode.permissive
      let queryAllowed := access.query.getD defaultAllow
      let insertAllowed := access.insert.getD defaultAllow
      let updateAllowed := access.update.getD defaultAllow
      let deleteAllowed := access.delete.getD defaultAllow
      if !queryAllowed && !insertAllowed && !updateAllowed && !deleteAllowed then
        { st with excluded := st.excluded ++ [tableName] }
      else
        let tc1 := setTableOps st.tableConfig tableName
          (fun ops => { ops with queries := some queryAllowed })
        let anyMutation := insertAllowed || updateAllowed || deleteAllowed
        if !anyMutation then
          { st with tableConfig :=
              (setTableOps tc1 tableName (fun ops => { ops with mutations := some false })) }
        else
          let tc2 := setTableOps tc1 tableName
            (fun ops => { ops with mutations := some true })
          if !insertAllowed || !updateAllowed || !deleteAllowed then
            { st with
              tableConfig := tc2
              mutationFilter := st.mutationFilter
                ++ [(tableName, { insert := insertAllowed
                                  update := updateAllowed
                                  delete := deleteAllowed })] }
          else { st with tableConfig := tc2 }

/-- `mergePermissionsIntoConfig` of permissions.ts: walk all table names,
skipping tables the base config already excludes, excluding denied and
all-flags-false tables, and recording per-table query/mutation toggles plus
the mutation post-filter; then rebuild the config (empty lists become
`undefined`). -/
def mergePermissionsIntoConfig (baseConfig : BuildSchemaConfig)
    (permissions : PermissionConfig) (allTableNames : List String) : MergeResult :=
  let init : PermMergeState :=
    { excluded := ((baseConfig.tables.bind (fun t => t.exclude)).getD [])
      tableConfig := ((baseConfig.tables.bind (fun t => t.config)).getD [])
      mutationFilter := [] }
  let final := allTableNames.foldl (mergePermStep permissions) init
  { config :=
      { baseConfig with
        tables := some
          { exclude := if final.excluded.isEmpty then none else some final.excluded
            config := if final.tableConfig.isEmpty then none else some final.tableConfig } }
    mutationFilter := final.mutationFilter }

/-- The suffix configuration, after the constructor`s defaulting
(`list: '', single: 'Single'` unless overridden). -/
structure Suffixes where
  list : String
  single : String
deriving DecidableEq, Repr

/-- The three query entry-point names `buildEntities` generates for a
table. -/
def tableQueryNames (s : Suffixes) (t : String) : List String :=
  [uncapitalize t ++ s.list, uncapitalize t ++ s.single, uncapitalize t ++ "Count"]

/-- The four mutation entry-point names `buildEntities` generates for a
table. -/
def tableMutationNames (t : String) : List String :=
  ["insertInto" ++ capitalize t, "insertInto" ++ capitalize t ++ "Single",
   "update" ++ capitalize t, "deleteFrom" ++ capitalize t]

/-- The exclusion list of a build config (empty when absent). -/
def configExclude (config : BuildSchemaConfig) : List String :=
  (config.tables.bind (fun t => t.exclude)).getD []

/-- The per-table operations of a build config for one table. -/
def configTableOps (config : BuildSchemaConfig) (t : String) : Option TableOperations :=
  ((config.tables.bind (fun t => t.config)).getD []).lookup t

/-- The generated entry-point names. -/
structure EntityNames where
  queries : List String
  mutations : List String
deriving DecidableEq, Repr

/-- `buildEntities` of schema-builder.ts, at the level of generated operation
names: iterate the schema tables minus the excluded ones; per table, queries
are generated unless `queries: false`, mutations unless `mutations: false`
per table or globally; a table with neither is skipped entirely. -/
def buildEntityNames (config : BuildSchemaConfig) (s : Suffixes)
    (allTableNames : List String) : EntityNames :=
  let tables := allTableNames.filter (fun t => !(configExclude config).contains t)
  tables.foldl
    (fun acc t =>
      let tableOps := configTableOps config t
      let generateQueries := (tableOps.bind (fun o => o.queries)) ≠ some false
      let generateMutations := (tableOps.bind (fun o => o.mutations)) ≠ some false
        ∧ config.mutations ≠ some false
      { queries := acc.queries ++ (if generateQueries then tableQueryNames s t else [])
        mutations := acc.mutations
          ++ (if generateMutations then tableMutationNames t else []) })
    { queries := [], mutations := [] }

/-- `postFilterMutations` of permissions.ts: delete the disallowed mutation
entry points named by the filter map. -/
def postFilterMutations (mutations : List String)
    (mutationFilter : List (String × MutationFlags)) : List String :=
  mutationFilter.foldl
    (fun muts e =>
      let cap := capitalize e.1
      let muts := if ¬e.2.insert then
          muts.filter (fun n => n ≠ "insertInto" ++ cap ∧ n ≠ "insertInto" ++ cap ++ "Single")
        else muts
      let muts := if ¬e.2.update then muts.filter (fun n => n ≠ "update" ++ cap) else muts
      if ¬e.2.delete then muts.filter (fun n => n ≠ "deleteFrom" ++ cap) else muts)
    mutations

/-- The entry points of a derived schema. -/
structure DerivedSchema where
  queries : List String
  mutations : List String
deriving DecidableEq, Repr

/-- `withPermissions` of `SchemaBuilder.build`, at the level of entry-point
names: merge the permissions into the config; if no table survives, the
placeholder `_empty` query schema; otherwise rebuild the entities with the
merged config, post-filter the mutation entry points, and omit the mutation
root when it would be empty or mutations are off. -/
def withPermissionsNames (baseConfig : BuildSchemaConfig) (s : Suffixes)
    (allTableNames : List String) (permissions : PermissionConfig) : DerivedSchema :=
  let merged := mergePermissionsIntoConfig baseConfig permissions allTableNames
  let excludedSet := configExclude merged.config
  let hasAnyTable := allTableNames.any (fun t => !excludedSet.contains t)
  if ¬hasAnyTable then { queries := ["_empty"], mutations := [] }
  else
    let ents := buildEntityNames merged.config s allTableNames
    let muts :=
      if merged.mutationFilter.length ≠ 0 then
        postFilterMutations ents.mutations merged.mutationFilter
      else ents.mutations
    { queries := if ents.queries.length ≠ 0 then ents.queries else ["_empty"]
      mutations :=
        if merged.config.mutations ≠ some false ∧ muts.length ≠ 0 then muts else [] }

/-! ### `buildSchema` surface and the permission-schema cache -/

/-- The keys of the object `SchemaBuilder.build` actually returns
(schema-builder.ts: `return \x7b schema, entities, withPermissions \x7d`). -/
def schemaBuilderBuildKeys : List String :=
  ["schema", "entities", "withPermissions"]

/-- The keys the declared return type of `buildSchema` (index.ts) promises,
including `clearPermissionCache: (id?: string) => void`. -/
def buildSchemaDeclaredKeys : List String :=
  ["schema", "entities", "withPermissions", "clearPermissionCache"]

/-- `buildSchema` (index.ts) returns `builder.build()` unchanged, so the
object it produces has exactly the keys of `SchemaBuilder.build`. -/
def buildSchemaActualKeys : List String :=
  schemaBuilderBuildKeys

/-- The `withPermissions` closure`s cache discipline: look the policy id up
in the cache and return the hit; otherwise compute the derived schema from
the full permission config and store it under the id. -/
def withPermissionsCached (compute : PermissionConfig → DerivedSchema)
    (cache : List (String × DerivedSchema)) (permissions : PermissionConfig) :
    DerivedSchema × List (String × DerivedSchema) :=
  match cache.lookup permissions.id with
  | some cached => (cached, cache)
  | none =>
    let s := compute permissions
    (s, cache ++ [(permissions.id, s)])

theorem lookup_append_self {α β : Type} [BEq α] [LawfulBEq α] {k : α} {v : β} :
    ∀ {l : List (α × β)}, l.lookup k = none → (l ++ [(k, v)]).lookup k = some v := by
  intro l
  induction l with
  | nil => intro _; simp [List.lookup]
  | cons e rest ih =>
    intro h
    rw [List.lookup] at h
    by_cases hk : k == e.1
    · rw [hk] at h
      exact Option.noConfusion h
    · rw [List.cons_append, List.lookup, Bool.of_not_eq_true hk]
      rw [Bool.of_not_eq_true hk] at h
      exact ih h

/-! ### Mutation resolver cores (`createInsertResolver`,
`createInsertSingleResolver`, `createUpdateResolver`)

The resolvers are modelled up to the adapter boundary: the returned `.ok`
payload is the row set handed to `adapter.executeInsert` /
`adapter.executeUpdate`; an `.error` is a `GraphQLError` thrown before the
adapter is invoked. -/

/-- `createInsertResolver`: remap the wire rows, reject an empty row set with
`No values were provided!`, then hand the rows to the adapter. -/
def createInsertResolverCore (table : Table) (values : List (List (String × GVal))) :
    Except GraphQLErr (List (List (String × SVal))) := do
  let input ← remapFromGraphQLArrayInput values table
  if input.isEmpty then .error .noInsertValues
  else .ok input

/-- `createInsertSingleResolver`: remap the single wire row and hand
`[input]` to the adapter — the source performs no emptiness check on this
path. -/
def createInsertSingleResolverCore (table : Table) (values : List (String × GVal)) :
    Except GraphQLErr (List (List (String × SVal))) := do
  let input ← remapFromGraphQLSingleInput values table
  .ok [input]

/-- `createUpdateResolver`: remap the set object, reject an empty remapped
set with `Unable to update with no values specified!`, then hand the set
values to the adapter. -/
def createUpdateResolverCore (table : Table) (set : List (String × GVal)) :
    Except GraphQLErr (List (String × SVal)) := do
  let input ← remapFromGraphQLSingleInput set table
  if input.isEmpty then .error .noUpdateValues
  else .ok input

/-! ### Semantics of compiled conditions

A denotational reading of the produced condition trees over one row of the
filtered table: SQL comparisons with a NULL operand are false, `AND`/`OR`
fold over their operands, and operators whose semantics live outside the
compiler (string patterns, ordering, subqueries, join atoms) are interpreted
by oracle functions supplied in the environment. -/

/-- The evaluation environment for compiled conditions. -/
structure EvalEnv where
  row : String → Option SVal
  ordSem : CmpOp → SVal → SVal → Bool
  strSem : StrOp → SVal → GVal → Bool
  existsSem : String → SQLCond → Bool
  joinSem : JoinAtom → Bool

mutual

/-- Truth value of a compiled condition over the environment`s row. -/
def evalCond (env : EvalEnv) : SQLCond → Bool
  | .cmp .eq col v => (env.row col).elim false (fun w => SVal.beq w v)
  | .cmp .ne col v => (env.row col).elim false (fun w => !SVal.beq w v)
  | .cmp op col v => (env.row col).elim false (fun w => env.ordSem op w v)
  | .strCmp op col pat => (env.row col).elim false (fun w => env.strSem op w pat)
  | .arrCmp .inArray col vs => (env.row col).elim false (fun w => vs.any (SVal.beq w))
  | .arrCmp .notInArray col vs =>
    (env.row col).elim false (fun w => !vs.any (SVal.beq w))
  | .nullCmp .isNull col => (env.row col).isNone
  | .nullCmp .isNotNull col => (env.row col).isSome
  | .andN cs => evalCondAll env cs
  | .orN cs => evalCondAny env cs
  | .notC c => !evalCond env c
  | .existsSub t w => env.existsSem t w
  | .joinA a => env.joinSem a

/-- Conjunction over a condition list. -/
def evalCondAll (env : EvalEnv) : List SQLCond → Bool
  | [] => true
  | c :: cs => evalCond env c && evalCondAll env cs

/-- Disjunction over a condition list. -/
def evalCondAny (env : EvalEnv) : List SQLCond → Bool
  | [] => false
  | c :: cs => evalCond env c || evalCondAny env cs

end

/-! ## Claim theorems -/

/-- Concrete fixtures used by witnesses and counterexamples. -/
def usersTable : Table :=
  { name := "users"
    columns :=
      [("id", { dataType := .other, columnType := "PgUUID", notNull := true }),
       ("name", { dataType := .other, columnType := "PgText", notNull := true }),
       ("bio", { dataType := .other, columnType := "PgText", notNull := false })] }

/-- C10: in mutation input remapping, a key whose value is null and whose
column is declared notNull is silently deleted — no coercion error, the
column is simply not written — while a null value for a nullable column is
passed through `remapFromGraphQLCore` coercion. -/
theorem C10_null_input_handling (tbl : Table) (k : String) (c : Column)
    (rest : List (String × GVal))
    (hlk : (getTableColumns tbl).lookup k = some c) :
    (c.notNull = true →
      remapFromGraphQLSingleInput ((k, GVal.vnull) :: rest) tbl
        = remapFromGraphQLSingleInput rest tbl)
    ∧ (c.notNull = false →
      remapFromGraphQLSingleInput ((k, GVal.vnull) :: rest) tbl
        = match remapFromGraphQLCore GVal.vnull c k with
          | .error e => .error e
          | .ok s =>
            match remapFromGraphQLSingleInput rest tbl with
            | .error e => .error e
            | .ok r => .ok ((k, s) :: r)) := by
  constructor
  · intro hnn
    rw [remapFromGraphQLSingleInput]
    simp [GVal.isUndef, GVal.isNull, hlk, hnn]
  · intro hnn
    rw [remapFromGraphQLSingleInput]
    rw [if_neg (by simp [GVal.isUndef])]
    simp only [hlk]
    rw [if_neg (by simp [GVal.isNull, hnn])]
    rcases remapFromGraphQLCore GVal.vnull c k with e | s <;>
      rcases remapFromGraphQLSingleInput rest tbl with e2 | r <;> rfl

/-- Witness for C10 at a concrete table: a null for the notNull column
`name` is dropped. -/
theorem C10_witness :
    remapFromGraphQLSingleInput [("name", GVal.vnull)] usersTable
      = remapFromGraphQLSingleInput [] usersTable :=
  (C10_null_input_handling usersTable "name"
    { dataType := .other, columnType := "PgText", notNull := true } [] rfl).1 rfl

/-- C2 counterexample: `insertIntoUserSingle` with an empty values object is
not rejected — the empty row is handed to the adapter (`.ok [[]]`), no
`GraphQLError` is thrown before the adapter call. -/
theorem C2_counterexample_insertSingle_empty :
    createInsertSingleResolverCore usersTable [] = .ok [[]]
    ∧ ¬∃ e, createInsertSingleResolverCore usersTable [] = .error e := by
  constructor
  · rfl
  · rintro ⟨e, h⟩
    rw [show createInsertSingleResolverCore usersTable [] = .ok [[]] from rfl] at h
    exact Except.noConfusion h

/-- C2 (amended): the array-insert resolver rejects an empty values array
with `No values were provided!` before invoking the adapter, and the update
resolver rejects a set object that is empty after remapping with
`Unable to update with no values specified!`; the single-insert resolver
performs no emptiness check and forwards the remapped row to the adapter. -/
theorem C2_mutation_preconditions (tbl : Table) :
    createInsertResolverCore tbl [] = .error .noInsertValues
    ∧ (∀ set, remapFromGraphQLSingleInput set tbl = .ok [] →
        createUpdateResolverCore tbl set = .error .noUpdateValues)
    ∧ (∀ vals input, remapFromGraphQLSingleInput vals tbl = .ok input →
        createInsertSingleResolverCore tbl vals = .ok [input]) := by
  refine ⟨rfl, ?_, ?_⟩
  · intro set h
    rw [createUpdateResolverCore.eq_def, h]
    rfl
  · intro vals input h
    rw [createInsertSingleResolverCore.eq_def, h]
    rfl

/-- Witness for C2: on the concrete users table, an update whose set object
remaps to empty (here: a null for a notNull column) is rejected. -/
theorem C2_witness :
    createUpdateResolverCore usersTable [("name", GVal.vnull)]
      = .error .noUpdateValues :=
  (C2_mutation_preconditions usersTable).2.1 [("name", GVal.vnull)] rfl

/-- C1: permission-derived schemas are cached by policy id (a second request
with the same id returns the stored schema and leaves the cache unchanged),
but the compiled result of `SchemaBuilder.build` carries no
`clearPermissionCache` key even though `buildSchema`'s declared return type
(and the package documentation) promise one — the eviction operation is
missing from the object the code actually returns. -/
theorem C1_cache_by_id_eviction_missing :
    ("clearPermissionCache" ∈ buildSchemaDeclaredKeys
      ∧ "clearPermissionCache" ∉ buildSchemaActualKeys)
    ∧ (∀ (compute : PermissionConfig → DerivedSchema)
        (cache : List (String × DerivedSchema)) (p : PermissionConfig)
        (s : DerivedSchema) (c' : List (String × DerivedSchema)),
        withPermissionsCached compute cache p = (s, c') →
        c'.lookup p.id = some s
        ∧ ∀ q, q.id = p.id → withPermissionsCached compute c' q = (s, c')) := by
  refine ⟨by decide, ?_⟩
  intro compute cache p s c' h
  unfold withPermissionsCached at h
  rcases hlk : cache.lookup p.id with _ | cached <;> rw [hlk] at h <;>
    simp only at h <;> injection h with hs hc <;> subst hs <;> subst hc
  · constructor
    · exact lookup_append_self hlk
    · intro q hq
      unfold withPermissionsCached
      rw [hq, lookup_append_self hlk]
  · constructor
    · exact hlk
    · intro q hq
      unfold withPermissionsCached
      rw [hq, hlk]

/-- Witness for C1`s cache clause at a concrete compute function, cache and
policy. -/
theorem C1_witness :
    ([] : List (String × DerivedSchema)).lookup "u" = none
    ∧ (withPermissionsCached (fun _ => ⟨["q"], []⟩) [] (restricted "u" none)).2.lookup "u"
        = some ⟨["q"], []⟩ :=
  ⟨rfl,
    (C1_cache_by_id_eviction_missing.2 (fun _ => ⟨["q"], []⟩) [] (restricted "u" none)
      ⟨["q"], []⟩ [("u", ⟨["q"], []⟩)] rfl).1⟩

/-- A plain text column fixture. -/
def textColumn : Column := { dataType := .other, columnType := "PgText", notNull := false }

/-- C8 counterexample: `OR` present (with an empty array) alongside `eq` does
not fail — the compiler deletes an empty `OR` before the exclusivity check
and compiles the remaining operator. -/
theorem C8_counterexample_empty_or :
    extractColumnFilters textColumn "name"
      (.vobj [("eq", .vstr "x"), ("OR", .varr [])])
      = .ok (some (.cmp .eq "name" (.sraw (.vstr "x")))) := by
  rw [extractColumnFilters.eq_def]
  rfl

/-- C8 (amended): compilation fails with the conflicting-OR error when a
non-empty `OR` is present alongside other operator keys at the same level
(and the same exclusivity rule fails table-level filters mixing a non-empty
`OR` with non-null sibling column or relation keys), and fails with the
empty-array error when `inArray`/`notInArray` is given an empty array. -/
theorem C8_filter_validation_errors :
    (∀ (col : Column) (cname : String) (ops : List (String × GVal)) (b : GVal)
        (bs : List GVal),
      lookupField "OR" ops = some (.varr (b :: bs)) → 2 ≤ ops.length →
      extractColumnFilters col cname (.vobj ops) = .error (.conflictingOrColumn cname))
    ∧ (∀ (env : FilterEnv) (tbl : Table) (tname : String)
        (fs : List (String × GVal)) (b : GVal) (bs : List GVal) (k : String) (v : GVal),
      lookupField "OR" fs = some (.varr (b :: bs)) → (k, v) ∈ fs → k ≠ "OR" →
      v.isNull = false →
      extractTableColumnFilters env tbl tname (.vobj fs) = .error (.conflictingOrTable tname))
    ∧ (∀ (col : Column) (cname opName : String),
      opName = "inArray" ∨ opName = "notInArray" →
      extractColumnFilters col cname (.vobj [(opName, .varr [])])
        = .error (.emptyArray cname opName)) := by
  refine ⟨?_, ?_, ?_⟩
  · intro col cname ops b bs hOR hlen
    have hfields : deleteOrIfEmpty (GVal.vobj ops).objFields = ops := by
      unfold deleteOrIfEmpty
      rw [show (GVal.vobj ops).objFields = ops from rfl, hOR]
      simp [GVal.isNonEmptyArray]
    rw [extractColumnFilters.eq_def]
    simp only [GVal.objFields] at hfields ⊢
    split
    · simp only [hfields]
      split
      · rfl
      · rename_i hlen2
        exact absurd (by omega) hlen2
    · rename_i hORm
      simp [hfields, hOR] at hORm
  · intro env tbl tname fs b bs k v hOR hmem hk hv
    have hfields : deleteOrIfEmpty (GVal.vobj fs).objFields = fs := by
      unfold deleteOrIfEmpty
      rw [show (GVal.vobj fs).objFields = fs from rfl, hOR]
      simp [GVal.isNonEmptyArray]
    rw [extractTableColumnFilters.eq_def]
    simp only [GVal.objFields] at hfields ⊢
    split
    · simp only [hfields]
      split
      · rfl
      · rename_i hcond
        exfalso
        apply hcond
        by_cases hcol : ((getTableColumns tbl).lookup k).isSome
        · left
          have hmf : (k, v) ∈ fs.filter
              (fun e => decide (e.1 ≠ "OR" ∧ ¬e.2.isNull = true
                ∧ ((getTableColumns tbl).lookup e.1).isSome = true)) := by
            rw [List.mem_filter]
            exact ⟨hmem, by simp [hk, hv, hcol]⟩
          exact List.length_pos.mpr (List.ne_nil_of_mem hmf)
        · right
          have hmf : (k, v) ∈ fs.filter
              (fun e => decide (e.1 ≠ "OR" ∧ ¬e.2.isNull = true
                ∧ ((getTableColumns tbl).lookup e.1).isNone = true)) := by
            have hnone : ((getTableColumns tbl).lookup k).isNone = true := by
              rcases hlku : (getTableColumns tbl).lookup k with _ | c
              · rfl
              · exact absurd (by rw [hlku]; rfl) hcol
            rw [List.mem_filter]
            refine ⟨hmem, by simp [hk, hv, hnone]⟩
          exact List.length_pos.mpr (List.ne_nil_of_mem hmf)
    · rename_i hORm
      simp [hfields, hOR] at hORm
  · intro col cname opName hop
    rcases hop with rfl | rfl <;> (rw [extractColumnFilters.eq_def]; rfl)

/-- Witness for C8 at concrete inputs: a non-empty `OR` next to `eq` throws
the conflicting-OR error, and `inArray: []` throws the empty-array error. -/
theorem C8_witness :
    extractColumnFilters textColumn "name"
      (.vobj [("eq", .vstr "x"), ("OR", .varr [.vobj [("eq", .vstr "y")]])])
      = .error (.conflictingOrColumn "name")
    ∧ extractColumnFilters textColumn "age" (.vobj [("inArray", .varr [])])
      = .error (.emptyArray "age" "inArray") :=
  ⟨C8_filter_validation_errors.1 textColumn "name"
      [("eq", .vstr "x"), ("OR", .varr [.vobj [("eq", .vstr "y")]])]
      (.vobj [("eq", .vstr "y")]) [] rfl (by decide),
   C8_filter_validation_errors.2.2 textColumn "age" "inArray" (Or.inl rfl)⟩

/-- `Except.ok` is left-neutral for bind. -/
theorem except_ok_bind {ε α β : Type} (a : α) (f : α → Except ε β) :
    (Except.ok a : Except ε α) >>= f = f a := rfl

/-- `pure` is left-neutral for `Except` bind. -/
theorem except_pure_bind {ε α β : Type} (a : α) (f : α → Except ε β) :
    (pure a : Except ε α) >>= f = f a := rfl

/-- C5: on a many-cardinality relation, a `\x7bevery: ev\x7d` relation filter
whose inner filter compiles to `f` yields
`NOT EXISTS(target WHERE join AND NOT f)`, and when the inner filter object
compiles to no condition at all, `every` is trivially true and the relation
filter emits no condition. -/
theorem C5_every_quantifier (env : FilterEnv) (tbl targetTable : Table)
    (tname relName : String) (rel : RelationMeta) (ev : GVal) (j : SQLCond)
    (hrel : env.relLookup tname relName = some rel)
    (hmany : rel.isOne = false)
    (htab : env.tables.lookup rel.targetTableName = some targetTable)
    (hjoin : buildJoinCondition tbl rel = some j)
    (htr : ev.truthy = true) :
    (∀ f, extractTableColumnFilters env targetTable rel.targetTableName ev = .ok (some f) →
      extractRelationFilters env tbl tname relName (.vobj [("every", ev)])
        = .ok (some (.notC (.existsSub rel.targetTableName (.andN [j, .notC f])))))
    ∧ (extractTableColumnFilters env targetTable rel.targetTableName ev = .ok none →
      extractRelationFilters env tbl tname relName (.vobj [("every", ev)]) = .ok none) := by
  constructor
  · intro f hinner
    rw [extractRelationFilters.eq_def]
    simp only [hrel, FilterEnv.getTable, htab, hmany, Bool.false_eq_true, if_false,
      except_ok_bind]
    split
    · rename_i sv hsv
      simp [GVal.get, GVal.objFields, lookupField] at hsv
    · simp only [except_pure_bind]
      split
      · rename_i ev1 hev1
        simp [GVal.get, GVal.objFields, lookupField] at hev1
        subst hev1
        rw [if_pos htr]
        rw [buildExistsSubquery.eq_def]
        simp only [hjoin, hinner, except_ok_bind]
        split
        · rename_i nv hnv
          simp [GVal.get, GVal.objFields, lookupField] at hnv
        · rfl
      · rename_i hev1
        simp [GVal.get, GVal.objFields, lookupField] at hev1
  · intro hinner
    rw [extractRelationFilters.eq_def]
    simp only [hrel, FilterEnv.getTable, htab, hmany, Bool.false_eq_true, if_false,
      except_ok_bind]
    split
    · rename_i sv hsv
      simp [GVal.get, GVal.objFields, lookupField] at hsv
    · simp only [except_pure_bind]
      split
      · rename_i ev1 hev1
        simp [GVal.get, GVal.objFields, lookupField] at hev1
        subst hev1
        rw [if_pos htr]
        rw [buildExistsSubquery.eq_def]
        simp only [hjoin, hinner, except_ok_bind]
        split
        · rename_i nv hnv
          simp [GVal.get, GVal.objFields, lookupField] at hnv
        · rfl
      · rename_i hev1
        simp [GVal.get, GVal.objFields, lookupField] at hev1

/-- `a ?? b` keeps a truthy `a` (truthy values are neither null nor undefined). -/
theorem jsCoalesce_of_truthy {g : GVal} (b : GVal) (h : g.truthy = true) :
    jsCoalesce g b = g := by
  cases g <;> simp_all [GVal.truthy, jsCoalesce, GVal.isNull, GVal.isUndef]

/-- `undefined ?? b = b`. -/
theorem jsCoalesce_vundef (b : GVal) : jsCoalesce GVal.vundef b = b := by
  simp [jsCoalesce, GVal.isNull, GVal.isUndef]

/-- C6: merging two hook configs that both define a `before` hook on the same
table and operation yields the single chained before hook
`chainBefore bA bB` (A first); behaviourally, on order-recording,
argument-transforming stubs the chained hook logs A`s tag strictly before
B`s tag and B receives the args A returned; a `resolve` hook in the later
config replaces the earlier hooks outright; and a later `before`/`after`
config entirely replaces an earlier `resolve` hook. -/
theorem C6_merge_hooks (t : String) (op : OperationType)
    (bA bB : BeforeHookFn) (aA aB : Option AfterHookFn)
    (h : OperationHooks) (r : ResolveHookFn)
    (nb : Option BeforeHookFn) (na : Option AfterHookFn)
    (tagA tagB : String) (fA fB : GVal → GVal)
    (ctx : HookCtx) (log : List String)
    (htr : (fA ctx.args).truthy = true) :
    hookAt (mergeHooks
        [some (singleHookConfig t op (.beforeAfter (some bA) aA)),
         some (singleHookConfig t op (.beforeAfter (some bB) aB))]) t op
      = some (.beforeAfter (some (chainBefore bA bB)) (mergeAfterSlot aB aA))
    ∧ chainBefore (stubBefore tagA fA) (stubBefore tagB fB) ctx log
      = (.vobj [("args", jsCoalesce (fB (fA ctx.args)) (fA ctx.args)),
                ("data", .vundef)],
         log ++ [tagA, tagB])
    ∧ hookAt (mergeHooks
        [some (singleHookConfig t op h),
         some (singleHookConfig t op (.resolveHook r))]) t op
      = some (.resolveHook r)
    ∧ hookAt (mergeHooks
        [some (singleHookConfig t op (.resolveHook r)),
         some (singleHookConfig t op (.beforeAfter nb na))]) t op
      = some (.beforeAfter nb na) := by
  refine ⟨?_, ?_, ?_, ?_⟩
  · simp [hookAt, mergeHooks, mergeTwoHookConfigs, singleHookConfig, mergeOperationHooks]
  · simp only [chainBefore, stubBefore]
    simp [jsProp, GVal.objFields, lookupField, htr]
    rw [jsCoalesce_of_truthy _ htr, jsCoalesce_vundef, jsCoalesce_vundef]
    exact ⟨rfl, rfl⟩
  · cases h <;>
      simp [hookAt, mergeHooks, mergeTwoHookConfigs, singleHookConfig, mergeOperationHooks]
  · simp [hookAt, mergeHooks, mergeTwoHookConfigs, singleHookConfig, mergeOperationHooks]

/-- An identity-ish resolve stub used by the C6 witness. -/
def resolveStubC6 : ResolveHookFn := fun ctx log => (ctx.args, log)

/-- The C6 witness`s first stub transform: replace the args outright. -/
def fAC6 : GVal → GVal := fun _ => .vstr "a"

/-- The C6 witness`s second stub transform: wrap the received args. -/
def fBC6 : GVal → GVal := fun g => .varr [g]

/-- The hook context the C6 witness runs the chained stub in. -/
def ctxC6 : HookCtx := { args := .vint 1, context := .vnull }

/-- Witness for C6 at concrete stubs: the merged before hook is the A-then-B
chain, it logs `["A", "B"]` and hands B the args A produced, a later resolve
replaces, and a later before/after replaces a resolve. -/
theorem C6_witness :
    hookAt (mergeHooks
        [some (singleHookConfig "users" .query
          (.beforeAfter (some (stubBefore "A" fAC6)) none)),
         some (singleHookConfig "users" .query
          (.beforeAfter (some (stubBefore "B" fBC6)) none))]) "users" .query
      = some (.beforeAfter (some (chainBefore (stubBefore "A" fAC6) (stubBefore "B" fBC6)))
          (mergeAfterSlot none none))
    ∧ chainBefore (stubBefore "A" fAC6) (stubBefore "B" fBC6) ctxC6 []
      = (.vobj [("args", jsCoalesce (fBC6 (fAC6 ctxC6.args)) (fAC6 ctxC6.args)),
                ("data", .vundef)], ["A", "B"])
    ∧ hookAt (mergeHooks
        [some (singleHookConfig "users" .query (.beforeAfter none none)),
         some (singleHookConfig "users" .query (.resolveHook resolveStubC6))]) "users" .query
      = some (.resolveHook resolveStubC6)
    ∧ hookAt (mergeHooks
        [some (singleHookConfig "users" .query (.resolveHook resolveStubC6)),
         some (singleHookConfig "users" .query (.beforeAfter none none))]) "users" .query
      = some (.beforeAfter none none) :=
  C6_merge_hooks "users" .query (stubBefore "A" fAC6) (stubBefore "B" fBC6) none none
    (.beforeAfter none none) resolveStubC6 none none "A" "B" fAC6 fBC6 ctxC6 []
    (by decide)

/-- The target side of the C5 fixture relation. -/
def postsTable : Table :=
  { name := "posts"
    columns :=
      [("id", { dataType := .other, columnType := "PgUUID", notNull := true }),
       ("authorId", { dataType := .other, columnType := "PgUUID", notNull := true }),
       ("title", { dataType := .other, columnType := "PgText", notNull := true })] }

/-- A many-cardinality relation users → posts joined on `users.id = posts.authorId`. -/
def relUsersPosts : RelationMeta :=
  { targetTableName := "posts"
    isOne := false
    keyPairs := some [(⟨"users", "id"⟩, ⟨"posts", "authorId"⟩)] }

/-- The compiler state holding both fixture tables and the fixture relation. -/
def envC5 : FilterEnv :=
  { tables := [("users", usersTable), ("posts", postsTable)]
    relationMap := [("users", [("posts", relUsersPosts)])] }

/-- Witness for C5 at the fixture relation: `\x7bevery: \x7btitle: \x7beq: "x"\x7d\x7d\x7d`
compiles to `NOT EXISTS(posts WHERE join AND NOT title = "x")`. -/
theorem C5_witness :
    extractRelationFilters envC5 usersTable "users" "posts"
      (.vobj [("every", .vobj [("title", .vobj [("eq", .vstr "x")])])])
      = .ok (some (.notC (.existsSub "posts"
          (.andN [.joinA (.parentFieldEq "users" "id" ⟨"posts", "authorId"⟩),
                  .notC (.cmp .eq "title" (.sraw (.vstr "x")))])))) := by
  have hinner : extractTableColumnFilters envC5 postsTable "posts"
      (.vobj [("title", .vobj [("eq", .vstr "x")])])
      = .ok (some (.cmp .eq "title" (.sraw (.vstr "x")))) := by
    have hcol : extractColumnFilters
        { dataType := .other, columnType := "PgText", notNull := true } "title"
        (.vobj [("eq", .vstr "x")])
        = .ok (some (.cmp .eq "title" (.sraw (.vstr "x")))) := by
      rw [extractColumnFilters.eq_def]; rfl
    rw [extractTableColumnFilters.eq_def]
    simp +decide [lowerTableColumnEntries, lowerTableRelationEntries, hcol, deleteOrIfEmpty,
      lookupField, getTableColumns, postsTable, GVal.objFields, GVal.isNonEmptyArray,
      GVal.isNull, combineAnd, List.lookup]
    rfl
  exact (C5_every_quantifier envC5 usersTable postsTable "users" "posts" relUsersPosts
      (.vobj [("title", .vobj [("eq", .vstr "x")])])
      (.joinA (.parentFieldEq "users" "id" ⟨"posts", "authorId"⟩))
      rfl rfl rfl rfl rfl).1
    (.cmp .eq "title" (.sraw (.vstr "x"))) hinner


/-- A build config with no global mutation switch and no table config. -/
def emptyBuildConfig : BuildSchemaConfig := { mutations := none, tables := none }

/-- The granular access granting only `query: true`. -/
def queryOnlyAccess : TableAccess :=
  { query := some true, insert := none, update := none, delete := none }

/-- The per-table operations `mergePermissionsIntoConfig` records for a
query-only grant under a restricted policy. -/
def queryOnlyOps : TableOperations := { queries := some true, mutations := some false }

/-- A granular access with all four operation flags set to false. -/
def allFalseC7 : TableAccess :=
  { query := some false, insert := some false, update := some false, delete := some false }

/-- `contains` is false off the list. -/
theorem contains_false_of_not_mem {l : List String} {a : String} (h : a ∉ l) :
    l.contains a = false :=
  Bool.eq_false_iff.mpr (fun hc => h (List.elem_iff.mp hc))

/-- A non-granted table is denied and excluded by the restricted
query-only-grant policy. -/
theorem c7_step_other (pid p t : String) (st : PermMergeState)
    (hne : t ≠ p) (hnx : t ∉ st.excluded) :
    mergePermStep (restricted pid (some [(p, .granular queryOnlyAccess)])) st t
      = { st with excluded := st.excluded ++ [t] } := by
  rw [mergePermStep,
    if_neg (by rw [contains_false_of_not_mem hnx]; exact Bool.false_ne_true)]
  have hne2 : (t == p) = false := by simp [hne]
  have hres : resolveTableAccess (restricted pid (some [(p, .granular queryOnlyAccess)])) t
      = .denyAll := by
    simp [resolveTableAccess, restricted, List.lookup, hne2]
  rw [hres]

/-- The granted table records `queries: true, mutations: false` and is not
excluded. -/
theorem c7_step_p (pid p : String) (st : PermMergeState)
    (hnx : p ∉ st.excluded)
    (htc : st.tableConfig = [] ∨ st.tableConfig = [(p, queryOnlyOps)]) :
    mergePermStep (restricted pid (some [(p, .granular queryOnlyAccess)])) st p
      = { st with tableConfig := [(p, queryOnlyOps)] } := by
  rw [mergePermStep,
    if_neg (by rw [contains_false_of_not_mem hnx]; exact Bool.false_ne_true)]
  have hres : resolveTableAccess (restricted pid (some [(p, .granular queryOnlyAccess)])) p
      = .granular queryOnlyAccess := by
    simp [resolveTableAccess, restricted, List.lookup]
  rw [hres]
  rcases htc with h | h <;>
    simp [h, queryOnlyAccess, setTableOps, List.lookup, queryOnlyOps, restricted]

/-- The merge loop of `mergePermissionsIntoConfig` under the restricted
query-only-grant policy: every other table lands in the exclusion list and
the granted table gets `queries: true, mutations: false`. -/
theorem c7_fold (pid p : String) :
    ∀ (ts : List String) (ex : List String) (tc : List (String × TableOperations))
      (mf : List (String × MutationFlags)),
      p ∉ ex → (∀ t ∈ ts, t ∉ ex) → ts.Nodup →
      (tc = [] ∨ tc = [(p, queryOnlyOps)]) →
      ts.foldl (mergePermStep (restricted pid (some [(p, .granular queryOnlyAccess)])))
          ⟨ex, tc, mf⟩
        = ⟨ex ++ ts.filter (fun t => !(t == p)),
           if p ∈ ts then [(p, queryOnlyOps)] else tc, mf⟩ := by
  intro ts
  induction ts with
  | nil => intro ex tc mf _ _ _ _; simp
  | cons t ts ih =>
    intro ex tc mf hpex hex hnd htc
    rw [List.foldl_cons]
    by_cases hp : t = p
    · subst hp
      rw [c7_step_p pid t ⟨ex, tc, mf⟩ hpex htc]
      rw [ih ex [(t, queryOnlyOps)] mf hpex
        (fun u hu => hex u (by simp [hu])) (List.nodup_cons.mp hnd).2 (Or.inr rfl)]
      simp
    · have hxt : t ∉ ex := hex t (by simp)
      rw [c7_step_other pid p t ⟨ex, tc, mf⟩ hp hxt]
      have hpex2 : p ∉ ex ++ [t] := by
        simp only [List.mem_append, List.mem_singleton]
        rintro (h | rfl)
        · exact hpex h
        · exact hp rfl
      have hex2 : ∀ u ∈ ts, u ∉ ex ++ [t] := by
        intro u hu
        simp only [List.mem_append, List.mem_singleton]
        rintro (h | rfl)
        · exact hex u (by simp [hu]) h
        · exact (List.nodup_cons.mp hnd).1 hu
      rw [ih (ex ++ [t]) tc mf hpex2 hex2 (List.nodup_cons.mp hnd).2 htc]
      have hp2 : ¬ p = t := fun h => hp h.symm
      have hbp : (t == p) = false := by simp [hp]
      simp [hbp, List.append_assoc, List.mem_cons, hp2]

/-- End to end: the derived schema of the restricted query-only-grant policy
has exactly the granted table`s three query entry points and no mutations. -/
theorem c7_main (pid p : String) (s : Suffixes) (ts : List String)
    (hmem : p ∈ ts) (hnd : ts.Nodup) :
    withPermissionsNames emptyBuildConfig s ts
        (restricted pid (some [(p, .granular queryOnlyAccess)]))
      = { queries := tableQueryNames s p, mutations := [] } := by
  have hfold := c7_fold pid p ts [] [] [] (by simp) (by simp) hnd (Or.inl rfl)
  rw [if_pos hmem] at hfold
  have hmerged : mergePermissionsIntoConfig emptyBuildConfig
      (restricted pid (some [(p, .granular queryOnlyAccess)])) ts
      = { config :=
            { mutations := none
              tables := some
                { exclude := if (ts.filter (fun t => !(t == p))).isEmpty then none
                    else some (ts.filter (fun t => !(t == p)))
                  config := some [(p, queryOnlyOps)] } }
          mutationFilter := [] } := by
    rw [mergePermissionsIntoConfig]
    rw [show (({ excluded := ((emptyBuildConfig.tables.bind (fun t => t.exclude)).getD [])
                 tableConfig := ((emptyBuildConfig.tables.bind (fun t => t.config)).getD [])
                 mutationFilter := [] }) : PermMergeState) = (⟨[], [], []⟩ : PermMergeState)
      from rfl]
    rw [hfold]
    simp [emptyBuildConfig]
  have hexcl : configExclude (mergePermissionsIntoConfig emptyBuildConfig
      (restricted pid (some [(p, .granular queryOnlyAccess)])) ts).config
      = ts.filter (fun t => !(t == p)) := by
    rw [hmerged]
    by_cases hE : (ts.filter (fun t => !(t == p))).isEmpty
    · simp [configExclude, hE, List.isEmpty_iff.mp hE]
    · simp [configExclude, hE]
  have hcontp : (ts.filter (fun u => !(u == p))).contains p = false := by
    apply contains_false_of_not_mem
    intro hmemf
    rw [List.mem_filter] at hmemf
    simp at hmemf
  have hfilterp : ts.filter (fun t => !((ts.filter (fun u => !(u == p))).contains t))
      = [p] := by
    have hsub : ∀ t ∈ ts,
        (!((ts.filter (fun u => !(u == p))).contains t)) = (t == p) := by
      intro t ht
      by_cases htp : t = p
      · subst htp
        rw [hcontp]
        simp
      · have hmf : t ∈ ts.filter (fun u => !(u == p)) :=
          List.mem_filter.mpr ⟨ht, by simp [htp]⟩
        have : (ts.filter (fun u => !(u == p))).contains t = true :=
          List.elem_iff.mpr hmf
        rw [this]
        simp [htp]
    rw [List.filter_congr hsub, List.filter_beq, List.count_eq_one_of_mem hnd hmem]
    rfl
  have hents : buildEntityNames (mergePermissionsIntoConfig emptyBuildConfig
      (restricted pid (some [(p, .granular queryOnlyAccess)])) ts).config s ts
      = { queries := tableQueryNames s p, mutations := [] } := by
    rw [buildEntityNames]
    simp only [hexcl, hfilterp]
    rw [List.foldl_cons, List.foldl_nil]
    have hops : configTableOps (mergePermissionsIntoConfig emptyBuildConfig
        (restricted pid (some [(p, .granular queryOnlyAccess)])) ts).config p
        = some queryOnlyOps := by
      rw [hmerged]
      simp [configTableOps, List.lookup]
    simp [hops, queryOnlyOps]
  have hany : ts.any (fun t =>
      !((configExclude (mergePermissionsIntoConfig emptyBuildConfig
        (restricted pid (some [(p, .granular queryOnlyAccess)])) ts).config).contains t))
      = true := by
    rw [List.any_eq_true]
    refine ⟨p, hmem, ?_⟩
    rw [hexcl, hcontp]
    rfl
  rw [withPermissionsNames]
  simp only [hents, hany]
  rw [hmerged]
  simp [tableQueryNames]

/-- C7: a restricted (default-deny) policy granting only query access on one
table derives a schema whose entry points are exactly that table`s three read
operations (list, single, count) with no mutation entry point; and in
general, a table whose resolved granular access has all four operation flags
false is excluded exactly like a fully denied table. -/
theorem C7_restricted_query_only (pid p : String) (s : Suffixes) (ts : List String)
    (perm2 : PermissionConfig) (st : PermMergeState) (t2 : String) (a : TableAccess)
    (hmem : p ∈ ts) (hnd : ts.Nodup)
    (hres : resolveTableAccess perm2 t2 = .granular a)
    (hq : a.query.getD (perm2.mode == PermMode.permissive) = false)
    (hi : a.insert.getD (perm2.mode == PermMode.permissive) = false)
    (hu : a.update.getD (perm2.mode == PermMode.permissive) = false)
    (hd : a.delete.getD (perm2.mode == PermMode.permissive) = false)
    (hnx : t2 ∉ st.excluded) :
    withPermissionsNames emptyBuildConfig s ts
        (restricted pid (some [(p, .granular queryOnlyAccess)]))
      = { queries := tableQueryNames s p, mutations := [] }
    ∧ mergePermStep perm2 st t2 = { st with excluded := st.excluded ++ [t2] } := by
  refine ⟨c7_main pid p s ts hmem hnd, ?_⟩
  rw [mergePermStep,
    if_neg (by rw [contains_false_of_not_mem hnx]; exact Bool.false_ne_true), hres]
  simp [hq, hi, hu, hd]

/-- Witness for C7: on tables `users` and `posts`, the restricted policy
granting only `posts.query` derives exactly the three posts read entry
points and no mutations, and an all-false granular table is excluded. -/
theorem C7_witness :
    withPermissionsNames emptyBuildConfig { list := "", single := "Single" }
        ["users", "posts"]
        (restricted "role" (some [("posts", .granular queryOnlyAccess)]))
      = { queries := tableQueryNames { list := "", single := "Single" } "posts"
          mutations := [] }
    ∧ mergePermStep (permissive "x" (some [("t", .granular allFalseC7)]))
        ⟨[], [], []⟩ "t"
      = { excluded := ["t"], tableConfig := [], mutationFilter := [] } :=
  C7_restricted_query_only "role" "posts" { list := "", single := "Single" }
    ["users", "posts"]
    (permissive "x" (some [("t", .granular allFalseC7)]))
    ⟨[], [], []⟩ "t" allFalseC7
    (by simp) (by simp) (by decide) rfl rfl rfl rfl (by simp)

/-- An `eq` operator with a non-null/non-false value lowers to a primitive
equality on the remapped value. -/
theorem lowerColumnOperator_eq (col : Column) (cname : String) (v : GVal) (s : SVal)
    (hnf : v.isNullOrFalse = false) (hs : remapFromGraphQLCore v col cname = .ok s) :
    lowerColumnOperator col cname "eq" v = .ok (some (.cmp .eq cname s)) := by
  rw [lowerColumnOperator]
  rw [if_neg (by rw [hnf]; exact Bool.false_ne_true)]
  rw [show lowerColumnOperator.cmpOpOfName "eq" = some CmpOp.eq from rfl]
  rw [hs]
  rfl

/-- A lone `\x7beq: v\x7d` operator object compiles to the single equality
condition. -/
theorem c9_eq_branch (col : Column) (cname : String) (v : GVal) (s : SVal)
    (hnf : v.isNullOrFalse = false) (hs : remapFromGraphQLCore v col cname = .ok s) :
    extractColumnFilters col cname (.vobj [("eq", v)]) = .ok (some (.cmp .eq cname s)) := by
  have hf : deleteOrIfEmpty (GVal.vobj [("eq", v)]).objFields = [("eq", v)] := by
    simp [deleteOrIfEmpty, lookupField, GVal.objFields]
  have hops : lowerColumnOperators col cname [("eq", v)]
      = .ok [SQLCond.cmp .eq cname s] := by
    simp [lowerColumnOperators, lowerColumnOperator_eq col cname v s hnf hs,
      except_ok_bind]
  rw [extractColumnFilters.eq_def]
  simp only [hf]
  split
  · rename_i orv hOR
    rw [hf] at hOR
    rw [show lookupField "OR" [("eq", v)] = none from rfl] at hOR
    exact Option.noConfusion hOR
  · rw [hops]
    rfl

/-- A sole non-empty `OR` key compiles each branch recursively and ORs the
results with `combineOr`. -/
theorem c9_or_general (col : Column) (cname : String) (vs : List GVal)
    (cs : List SQLCond) (hne : vs ≠ [])
    (hvs : extractColumnFiltersOrList col cname vs = .ok cs) :
    extractColumnFilters col cname (.vobj [("OR", .varr vs)]) = .ok (combineOr cs) := by
  obtain ⟨vh, vt, rfl⟩ := List.exists_cons_of_ne_nil hne
  have hf : deleteOrIfEmpty (GVal.vobj [("OR", GVal.varr (vh :: vt))]).objFields
      = [("OR", GVal.varr (vh :: vt))] := by
    simp [deleteOrIfEmpty, lookupField, GVal.objFields, GVal.isNonEmptyArray]
  rw [extractColumnFilters.eq_def]
  simp only [hf]
  split
  · rename_i orv hOR
    rw [hf] at hOR
    rw [show lookupField "OR" [("OR", GVal.varr (vh :: vt))]
      = some (GVal.varr (vh :: vt)) from rfl] at hOR
    injection hOR with hOR
    subst hOR
    rw [if_neg (by simp)]
    rw [show (GVal.varr (vh :: vt)).arrItems = vh :: vt from rfl, hvs]
    rfl
  · rename_i hOR
    rw [hf] at hOR
    rw [show lookupField "OR" [("OR", GVal.varr (vh :: vt))]
      = some (GVal.varr (vh :: vt)) from rfl] at hOR
    exact Option.noConfusion hOR

/-- Two operator keys at one level lower to primitives that are AND`d. -/
theorem c9_two_keys (col : Column) (cname : String) (k1 k2 : String) (w1 w2 : GVal)
    (c1 c2 : SQLCond)
    (hk1o : k1 ≠ "OR") (hk2o : k2 ≠ "OR")
    (hk1 : lowerColumnOperator col cname k1 w1 = .ok (some c1))
    (hk2 : lowerColumnOperator col cname k2 w2 = .ok (some c2)) :
    extractColumnFilters col cname (.vobj [(k1, w1), (k2, w2)])
      = .ok (some (.andN [c1, c2])) := by
  have hf : deleteOrIfEmpty (GVal.vobj [(k1, w1), (k2, w2)]).objFields
      = [(k1, w1), (k2, w2)] := by
    simp [deleteOrIfEmpty, lookupField, GVal.objFields, hk1o, hk2o]
  have hops : lowerColumnOperators col cname [(k1, w1), (k2, w2)] = .ok [c1, c2] := by
    simp [lowerColumnOperators, hk1, hk2, except_ok_bind]
  rw [extractColumnFilters.eq_def]
  simp only [hf]
  split
  · rename_i orv hOR
    have hlk : lookupField "OR" [(k1, w1), (k2, w2)] = none := by
      show (if k1 = "OR" then some w1 else lookupField "OR" [(k2, w2)]) = none
      rw [if_neg hk1o]
      show (if k2 = "OR" then some w2 else lookupField "OR" []) = none
      rw [if_neg hk2o]
      rfl
    rw [hf] at hOR
    rw [hlk] at hOR
    exact Option.noConfusion hOR
  · rw [hops]
    rfl

/-- The OR-list evaluator is the boolean any. -/
theorem evalCondAny_eq_any (env : EvalEnv) :
    ∀ ds : List SQLCond, evalCondAny env ds = ds.any (evalCond env) := by
  intro ds
  induction ds with
  | nil => rfl
  | cons d ds ih => simp [evalCondAny, List.any_cons, ih]


/-- C9: compiling `\x7bOR: [\x7beq: v1\x7d, \x7beq: v2\x7d]\x7d` for column C yields
`orN [C = s1, C = s2]`, which evaluates as the disjunction of the two
equalities; in general multiple operator keys at one level AND together and
`OR` branches compile recursively and OR together. -/
theorem C9_or_and_composition (col : Column) (cname : String) (v1 v2 : GVal)
    (s1 s2 : SVal) (k1 k2 : String) (w1 w2 : GVal) (c1 c2 : SQLCond)
    (vs : List GVal) (cs : List SQLCond)
    (hnf1 : v1.isNullOrFalse = false) (hnf2 : v2.isNullOrFalse = false)
    (hs1 : remapFromGraphQLCore v1 col cname = .ok s1)
    (hs2 : remapFromGraphQLCore v2 col cname = .ok s2)
    (hk1o : k1 ≠ "OR") (hk2o : k2 ≠ "OR")
    (hk1 : lowerColumnOperator col cname k1 w1 = .ok (some c1))
    (hk2 : lowerColumnOperator col cname k2 w2 = .ok (some c2))
    (hne : vs ≠ [])
    (hvs : extractColumnFiltersOrList col cname vs = .ok cs) :
    extractColumnFilters col cname
        (.vobj [("OR", .varr [.vobj [("eq", v1)], .vobj [("eq", v2)]])])
      = .ok (some (.orN [.cmp .eq cname s1, .cmp .eq cname s2]))
    ∧ (∀ env, evalCond env (.orN [.cmp .eq cname s1, .cmp .eq cname s2])
        = (evalCond env (.cmp .eq cname s1) || evalCond env (.cmp .eq cname s2)))
    ∧ extractColumnFilters col cname (.vobj [(k1, w1), (k2, w2)])
      = .ok (some (.andN [c1, c2]))
    ∧ (∀ env, evalCond env (.andN [c1, c2]) = (evalCond env c1 && evalCond env c2))
    ∧ extractColumnFilters col cname (.vobj [("OR", .varr vs)]) = .ok (combineOr cs)
    ∧ (∀ env, evalCond env (.orN cs) = cs.any (evalCond env)) := by
  have hb1 := c9_eq_branch col cname v1 s1 hnf1 hs1
  have hb2 := c9_eq_branch col cname v2 s2 hnf2 hs2
  have hnil : extractColumnFiltersOrList col cname [] = .ok [] := by
    rw [extractColumnFiltersOrList.eq_def]
  have hlist : extractColumnFiltersOrList col cname
      [.vobj [("eq", v1)], .vobj [("eq", v2)]]
      = .ok [.cmp .eq cname s1, .cmp .eq cname s2] := by
    rw [extractColumnFiltersOrList.eq_def]
    simp only [hb1, except_ok_bind]
    rw [extractColumnFiltersOrList.eq_def]
    simp only [hb2, hnil, except_ok_bind]
  refine ⟨?_, ?_, c9_two_keys col cname k1 k2 w1 w2 c1 c2 hk1o hk2o hk1 hk2, ?_,
    c9_or_general col cname vs cs hne hvs, ?_⟩
  · exact c9_or_general col cname _ _ (by simp) hlist
  · intro env
    simp [evalCond, evalCondAny]
  · intro env
    simp [evalCond, evalCondAll]
  · intro env
    rw [show evalCond env (.orN cs) = evalCondAny env cs from by rw [evalCond]]
    exact evalCondAny_eq_any env cs


/-- Witness for C9 at a concrete text column: the two-branch OR, an
`eq`/`ne` pair, and a one-branch OR all compile and evaluate as stated. -/
theorem C9_witness :
    extractColumnFilters textColumn "name"
        (.vobj [("OR", .varr [.vobj [("eq", .vstr "a")], .vobj [("eq", .vstr "b")]])])
      = .ok (some (.orN [.cmp .eq "name" (.sraw (.vstr "a")),
                         .cmp .eq "name" (.sraw (.vstr "b"))]))
    ∧ (∀ env, evalCond env (.orN [.cmp .eq "name" (.sraw (.vstr "a")),
                                  .cmp .eq "name" (.sraw (.vstr "b"))])
        = (evalCond env (.cmp .eq "name" (.sraw (.vstr "a")))
            || evalCond env (.cmp .eq "name" (.sraw (.vstr "b")))))
    ∧ extractColumnFilters textColumn "name"
        (.vobj [("eq", .vstr "a"), ("ne", .vstr "b")])
      = .ok (some (.andN [.cmp .eq "name" (.sraw (.vstr "a")),
                          .cmp .ne "name" (.sraw (.vstr "b"))]))
    ∧ (∀ env, evalCond env (.andN [.cmp .eq "name" (.sraw (.vstr "a")),
                                   .cmp .ne "name" (.sraw (.vstr "b"))])
        = (evalCond env (.cmp .eq "name" (.sraw (.vstr "a")))
            && evalCond env (.cmp .ne "name" (.sraw (.vstr "b")))))
    ∧ extractColumnFilters textColumn "name"
        (.vobj [("OR", .varr [.vobj [("eq", .vstr "a")]])])
      = .ok (combineOr [.cmp .eq "name" (.sraw (.vstr "a"))])
    ∧ (∀ env, evalCond env (.orN [SQLCond.cmp .eq "name" (.sraw (.vstr "a"))])
        = [SQLCond.cmp .eq "name" (.sraw (.vstr "a"))].any (evalCond env)) :=
  C9_or_and_composition textColumn "name" (.vstr "a") (.vstr "b")
    (.sraw (.vstr "a")) (.sraw (.vstr "b")) "eq" "ne" (.vstr "a") (.vstr "b")
    (.cmp .eq "name" (.sraw (.vstr "a"))) (.cmp .ne "name" (.sraw (.vstr "b")))
    [.vobj [("eq", .vstr "a")]] [.cmp .eq "name" (.sraw (.vstr "a"))]
    rfl rfl rfl rfl (by decide) (by decide) rfl rfl (by simp)
    (by
      rw [extractColumnFiltersOrList.eq_def]
      simp only [show extractColumnFilters textColumn "name" (.vobj [("eq", .vstr "a")])
          = .ok (some (.cmp .eq "name" (.sraw (.vstr "a")))) from by
            rw [extractColumnFilters.eq_def]; rfl,
        show extractColumnFiltersOrList textColumn "name" []
          = .ok [] from by rw [extractColumnFiltersOrList.eq_def],
        except_ok_bind])

/-- C3: a self-referential relation edge that survives the allow-list and
prune filters is skipped exactly when the current self-relation run plus one
reaches the configured limit `S`, and every node of a generated graph has
self-relation runs of length at most `S - 1`. -/
theorem C3_self_relation_limit (cfg : GenConfig) (S : Nat)
    (tableName relName t : String) (d : Nat) (u : List String) (sd : Nat)
    (al : Option (List String)) (entry : GenRelEntry)
    (hS : cfg.limitSelfRelationDepth = S) (hS1 : 1 ≤ S)
    (hself : (entry.targetTableName == tableName) = true)
    (hallow : allowedSkips al relName = false)
    (hprune : pruneRuleFor cfg tableName relName ≠ some PruneRule.omit) :
    (planRelationEdge cfg tableName d u sd al relName entry = none ↔ S ≤ sd + 1)
    ∧ everyNode (fun n => decide (selfChain n ≤ S - 1))
        (generateSelectFields cfg t 0 [] 0 false none) = true := by
  subst hS
  constructor
  · rw [planRelationEdge]
    rw [if_neg (by rw [hallow]; exact Bool.false_ne_true), if_neg hprune]
    rw [hself]
    simp only [Bool.true_and, skipsSelfEdge]
    by_cases hc : cfg.limitSelfRelationDepth ≤ sd + 1
    · simp [hc]
    · simp [hc]
  · exact (selfChain_generateSelectFields cfg t 0 [] 0 false none).2

/-- A self-referential fixture: table `emp` with a `manager` relation to
itself, self-relation limit 2. -/
def cfgC3 : GenConfig :=
  { limitRelationDepth := some 5
    limitSelfRelationDepth := 2
    relationMap := [("emp", [("manager", { targetTableName := "emp", isOne := true })])]
    pruneRelations := []
    columns := [("emp", ["id"])] }

/-- Witness for C3: at run length 1 under limit 2 the self edge is skipped,
and the generated `emp` graph keeps runs within 2 - 1. -/
theorem C3_witness :
    (planRelationEdge cfgC3 "emp" 0 [] 1 none "manager"
        { targetTableName := "emp", isOne := true } = none ↔ 2 ≤ 1 + 1)
    ∧ everyNode (fun n => decide (selfChain n ≤ 2 - 1))
        (generateSelectFields cfgC3 "emp" 0 [] 0 false none) = true :=
  C3_self_relation_limit cfgC3 2 "emp" "manager" "emp" 0 [] 1 none
    { targetTableName := "emp", isOne := true }
    rfl (by decide) (by decide) rfl (by decide)

/-- C4: under a finite depth limit `D`, a cross-table-cycle edge recurses at
effective depth `max(depth+1, D-1)`; once the current depth reaches `D` the
generator emits no relation fields; and a graph generated from depth 0 nests
relations at most `D` deep. -/
theorem C4_depth_limit (cfg : GenConfig) (D : Nat) (tableName relName t t2 : String)
    (d d2 : Nat) (u u2 : List String) (sd sd2 sd3 : Nat) (fl fl2 : Bool)
    (al al2 : Option (List String)) (entry : GenRelEntry) (plan : EdgePlan)
    (hD : cfg.limitRelationDepth = some D)
    (hplan : planRelationEdge cfg tableName d u sd al relName entry = some plan)
    (hccne : (entry.targetTableName == tableName) = false)
    (hccmem : u.contains entry.targetTableName = true)
    (hstop : D ≤ d2) :
    plan.nextDepth = max (d + 1) (D - 1)
    ∧ (generateSelectFields cfg t2 d2 u2 sd2 fl2 al2).relationFields = []
    ∧ relDepth (generateSelectFields cfg t 0 u sd3 fl al) ≤ D := by
  refine ⟨?_, ?_, ?_⟩
  · have hspec := (planRelationEdge_spec hplan).2.1
    rw [hspec, hD, hccne, hccmem]
    simp [effectiveNextDepth]
  · have hs : stopRelationDescent cfg.limitRelationDepth t2 d2 u2 fl2
        (((cfg.relationMap.lookup t2).getD []).isEmpty) = true := by
      simp [stopRelationDescent, hD]
      omega
    rw [generateSelectFields, dif_pos hs]
    rfl
  · have h := relDepth_generateSelectFields_le cfg D hD t 0 u sd3 fl al
    simpa using h

/-- A two-table cycle fixture `a ↔ b` with depth limit 3. -/
def cfgC4 : GenConfig :=
  { limitRelationDepth := some 3
    limitSelfRelationDepth := 5
    relationMap :=
      [("a", [("b", { targetTableName := "b", isOne := false })]),
       ("b", [("a", { targetTableName := "a", isOne := false })])]
    pruneRelations := []
    columns := [("a", ["x"]), ("b", ["y"])] }

/-- Witness for C4: the `a → b` edge with `b` already visited plans depth
`max(2, 2)`, generation at depth 3 emits no relations, and the graph from
depth 0 stays within depth 3. -/
theorem C4_witness :
    ({ isSelfRelation := false, nextDepth := 2, nextSelfDepth := 0, forceLeaf := false,
       allowedRelations := none } : EdgePlan).nextDepth = max (1 + 1) (3 - 1)
    ∧ (generateSelectFields cfgC4 "a" 3 [] 0 false none).relationFields = []
    ∧ relDepth (generateSelectFields cfgC4 "a" 0 ["b"] 0 false none) ≤ 3 :=
  C4_depth_limit cfgC4 3 "a" "b" "a" "a" 1 3 ["b"] [] 0 0 0 false false none none
    { targetTableName := "b", isOne := false }
    { isSelfRelation := false, nextDepth := 2, nextSelfDepth := 0, forceLeaf := false,
      allowedRelations := none }
    rfl rfl rfl rfl (by decide)

end DG
